import Mathlib

/-!
Shallow embedding of the Themis orchestration engine
(src/orchestrator/{retry,circuit_breaker,async_execution,validation,service}.py)
and proofs about the frozen claims.

Python dictionaries are modelled as association lists with Python's
insertion-order update semantics; `None` is `Value.none`; machine floats
used for delays/timestamps carry only exact arithmetic here and are
modelled as rationals.
-/

namespace Themis

/-- A Python-like JSON value: the payload shapes the orchestrator passes
between agents (`matter`, agent outputs, artifacts). -/
inductive Value where
  | none
  | bool (b : Bool)
  | int (n : Int)
  | str (s : String)
  | list (xs : List Value)
  | dict (xs : List (String × Value))

/-- A Python `dict[str, Any]` as an insertion-ordered association list. -/
abbrev Dict := List (String × Value)

/-- Lookup of the first binding of a key, `d[k]` / `d.get(k)` returning
`Option`. -/
def dget (d : Dict) (k : String) : Option Value :=
  match d with
  | [] => Option.none
  | (k', v) :: rest => if k' = k then some v else dget rest k

/-- Python `d.get(k)`: a missing key and a key bound to `None` are
indistinguishable to the caller. -/
def pyGet (d : Dict) (k : String) : Value :=
  (dget d k).getD Value.none

/-- Python key containment `k in d`. -/
def containsKey (d : Dict) (k : String) : Bool :=
  (dget d k).isSome

/-- Python `d[k] = v`: replace the first binding in place, else append
(insertion order preserved). -/
def dset (d : Dict) (k : String) (v : Value) : Dict :=
  match d with
  | [] => [(k, v)]
  | (k', v') :: rest => if k' = k then (k, v) :: rest else (k', v') :: dset rest k v

/-- Python `d.update(u)`: fold `dset` over the update's bindings. -/
def dupdate (d : Dict) (u : Dict) : Dict :=
  u.foldl (fun acc kv => dset acc kv.1 kv.2) d

/-- Python truthiness of a value (`if doc_type:` and friends). -/
def truthy : Value → Bool
  | Value.none => false
  | Value.bool b => b
  | Value.int n => n ≠ 0
  | Value.str s => s ≠ ""
  | Value.list xs => !xs.isEmpty
  | Value.dict xs => !xs.isEmpty

theorem dget_dset_self (d : Dict) (k : String) (v : Value) :
    dget (dset d k v) k = some v := by
  induction d with
  | nil => simp [dset, dget]
  | cons hd tl ih =>
    by_cases h : hd.1 = k
    · simp [dset, dget, h]
    · simp [dset, dget, h, ih]

theorem dget_dset_ne (d : Dict) (k k' : String) (v : Value) (h : k ≠ k') :
    dget (dset d k v) k' = dget d k' := by
  induction d with
  | nil => simp [dset, dget, h]
  | cons hd tl ih =>
    by_cases hk : hd.1 = k
    · simp [dset, dget, hk, h]
    · simp only [dset, if_neg hk]
      by_cases hk' : hd.1 = k'
      · simp [dget, hk']
      · simp [dget, hk', ih]

theorem dget_dupdate_not_mem (d u : Dict) (k : String)
    (h : ∀ kv ∈ u, kv.1 ≠ k) : dget (dupdate d u) k = dget d k := by
  induction u generalizing d with
  | nil => rfl
  | cons hd tl ih =>
    have hhd : hd.1 ≠ k := h hd (by simp)
    have := ih (dset d hd.1 hd.2) (fun kv hkv => h kv (by simp [hkv]))
    simpa [dupdate, this] using dget_dset_ne d hd.1 k hd.2 hhd ▸ this

theorem containsKey_eq_false_forall (d : Dict) (k : String)
    (h : containsKey d k = false) : ∀ kv ∈ d, kv.1 ≠ k := by
  induction d with
  | nil => intro kv hkv; cases hkv
  | cons hd tl ih =>
    intro kv hkv
    simp only [containsKey, dget] at h
    by_cases hk : hd.1 = k
    · rw [if_pos hk] at h; simp at h
    · rw [if_neg hk] at h
      rcases List.mem_cons.1 hkv with rfl | hkv
      · exact hk
      · exact ih h kv hkv

theorem keys_mem_dset (d : Dict) (k : String) (v : Value) (a : String) :
    a ∈ (dset d k v).map Prod.fst ↔ a ∈ d.map Prod.fst ∨ a = k := by
  induction d with
  | nil => simp [dset]
  | cons hd tl ih =>
    by_cases h : hd.1 = k
    · simp only [dset, if_pos h, List.map_cons, List.mem_cons]
      rw [← h]
      tauto
    · simp only [dset, if_neg h, List.map_cons, List.mem_cons, ih]
      tauto

theorem keys_nodup_dset (d : Dict) (k : String) (v : Value)
    (h : (d.map Prod.fst).Nodup) : ((dset d k v).map Prod.fst).Nodup := by
  induction d with
  | nil => simp [dset]
  | cons hd tl ih =>
    by_cases hk : hd.1 = k
    · simp only [dset, if_pos hk]
      simp only [List.map_cons, List.nodup_cons] at h ⊢
      exact ⟨by rw [← hk]; exact h.1, h.2⟩
    · simp only [dset, if_neg hk]
      simp only [List.map_cons, List.nodup_cons] at h ⊢
      refine ⟨?_, ih h.2⟩
      intro hmem
      rcases (keys_mem_dset tl k v hd.1).1 hmem with h1 | h2
      · exact h.1 h1
      · exact hk h2

theorem dget_dupdate_of_nodup (d u : Dict) (k : String) (v : Value)
    (hnd : (u.map Prod.fst).Nodup) (h : dget u k = some v) :
    dget (dupdate d u) k = some v := by
  induction u generalizing d with
  | nil => simp [dget] at h
  | cons hd tl ih =>
    simp only [List.map_cons, List.nodup_cons] at hnd
    simp only [dget] at h
    by_cases hk : hd.1 = k
    · rw [if_pos hk] at h
      have hall : ∀ kv ∈ tl, kv.1 ≠ k := by
        intro kv hkv hEq
        exact hnd.1 (hk ▸ hEq ▸ List.mem_map_of_mem Prod.fst hkv)
      show dget (dupdate (dset d hd.1 hd.2) tl) k = some v
      rw [dget_dupdate_not_mem _ tl k hall, ← hk, dget_dset_self]
      exact h
    · rw [if_neg hk] at h
      exact ih (dset d hd.1 hd.2) hnd.2 h

/-- A fold that preserves a property of the accumulator preserves it
over any list. -/
theorem foldl_preserves {α β : Type} (P : β → Prop) (f : β → α → β)
    (hf : ∀ b a, P b → P (f b a)) :
    ∀ (l : List α) (b : β), P b → P (l.foldl f b) := by
  intro l
  induction l with
  | nil => intro b hb; exact hb
  | cons a t ih => intro b hb; exact ih (f b a) (hf b a hb)

/-! ## Exceptions

Python exceptions are modelled by their class name (driving the
`isinstance` checks of `retryable_exceptions` / `excluded_exceptions`,
here abstracted to a boolean predicate, the spec's
"retryable-exception predicate") and the message `str(exc)` yields. -/

/-- A raised Python exception: class name and message. -/
structure Exc where
  cls : String
  msg : String
deriving DecidableEq, Repr

/-! ## Retry policy (src/orchestrator/retry.py)

`asyncio.sleep` has no observable effect on the retry result, so the
executor is modelled as a pure loop; the random jitter sample
`random.random()` is passed in explicitly as `u`. -/

/-- Backoff strategy for retry delays. -/
inductive BackoffStrategy where
  | constant
  | linear
  | exponential
deriving DecidableEq, Repr

/-- Configuration for retry behavior (`RetryPolicy` dataclass). -/
structure RetryPolicy where
  max_attempts : Nat := 3
  base_delay_seconds : ℚ := 1
  max_delay_seconds : ℚ := 30
  backoff_strategy : BackoffStrategy := BackoffStrategy.exponential
  jitter : ℚ := 1/10
  retryable : Exc → Bool := fun _ => true

/-- The deterministic part of `RetryPolicy.compute_delay`: the strategy
formula followed by the `min(delay, max_delay_seconds)` cap, before the
jitter term is added. -/
def RetryPolicy.compute_delay_pre (p : RetryPolicy) (attempt : Nat) : ℚ :=
  let delay :=
    match p.backoff_strategy with
    | BackoffStrategy.constant => p.base_delay_seconds
    | BackoffStrategy.linear => p.base_delay_seconds * attempt
    | BackoffStrategy.exponential => p.base_delay_seconds * 2 ^ (attempt - 1)
  min delay p.max_delay_seconds

/-- `RetryPolicy.compute_delay(attempt)` with the jitter sample `u`
(Python draws `u = random.random()`). -/
def RetryPolicy.compute_delay (p : RetryPolicy) (attempt : Nat) (u : ℚ) : ℚ :=
  let delay := p.compute_delay_pre attempt
  if p.jitter > 0 then delay + delay * p.jitter * u else delay

/-- `RetryPolicy.should_retry(exception, attempt)`. -/
def RetryPolicy.should_retry (p : RetryPolicy) (e : Exc) (attempt : Nat) : Bool :=
  if attempt ≥ p.max_attempts then false else p.retryable e

/-- Result of a retry operation (`RetryResult` dataclass). -/
structure RetryResult (α : Type) where
  success : Bool
  result : Option α := Option.none
  attempts : Nat := 1
  last_exception : Option Exc := Option.none
  exceptions : List Exc := []
deriving DecidableEq, Repr

/-- The loop of `retry_async` from the current `attempt` on, with the
number of attempts still allowed as structural fuel (the Python `for`
ranges over `1 .. max_attempts`); `acc` holds the exceptions
encountered so far.  The operation is a function of the attempt number
so that distinct invocations may behave differently. -/
def retryFrom {α : Type} (op : Nat → Except Exc α) (p : RetryPolicy) :
    Nat → Nat → List Exc → RetryResult α
  | 0, _, acc =>
      { success := false, result := Option.none, attempts := acc.length,
        last_exception := acc.getLast?, exceptions := acc }
  | fuel + 1, attempt, acc =>
      match op attempt with
      | Except.ok v =>
          { success := true, result := some v, attempts := attempt,
            last_exception := Option.none, exceptions := acc }
      | Except.error e =>
          let acc' := acc ++ [e]
          if p.should_retry e attempt then
            retryFrom op p fuel (attempt + 1) acc'
          else
            { success := false, result := Option.none, attempts := acc'.length,
              last_exception := some e, exceptions := acc' }

/-- `retry_async(operation, policy)`. -/
def retry_async {α : Type} (op : Nat → Except Exc α) (p : RetryPolicy) :
    RetryResult α :=
  retryFrom op p p.max_attempts 1 []

/-- Named preset `DEFAULT_AGENT_RETRY_POLICY`. -/
def DEFAULT_AGENT_RETRY_POLICY : RetryPolicy :=
  { max_attempts := 3, base_delay_seconds := 1, max_delay_seconds := 30,
    backoff_strategy := BackoffStrategy.exponential, jitter := 1/10 }

/-- Named preset `NO_RETRY_POLICY`. -/
def NO_RETRY_POLICY : RetryPolicy := { max_attempts := 1 }

theorem compute_delay_pre_le_cap (p : RetryPolicy) (a : Nat) :
    p.compute_delay_pre a ≤ p.max_delay_seconds :=
  min_le_right _ _

theorem compute_delay_pre_mono (p : RetryPolicy)
    (hbase : 0 ≤ p.base_delay_seconds)
    (hstrat : p.backoff_strategy = BackoffStrategy.linear ∨
      p.backoff_strategy = BackoffStrategy.exponential)
    {a b : Nat} (hab : a ≤ b) :
    p.compute_delay_pre a ≤ p.compute_delay_pre b := by
  unfold RetryPolicy.compute_delay_pre
  rcases hstrat with h | h <;> rw [h] <;> simp only
  · exact min_le_min (by
      apply mul_le_mul_of_nonneg_left _ hbase
      exact_mod_cast hab) le_rfl
  · exact min_le_min (by
      apply mul_le_mul_of_nonneg_left _ hbase
      exact pow_le_pow_right₀ (by norm_num) (Nat.sub_le_sub_right hab 1)) le_rfl

/-- The loop of `retry_async`, when the operation fails at the current
attempt and at every later one, ends with a failure result that carries
every exception raised by the attempts actually made, the final one as
`last_exception`, and `attempts` equal to their count. -/
theorem retryFrom_all_fail {α : Type} (op : Nat → Except Exc α)
    (p : RetryPolicy) (es : Nat → Exc)
    (hop : ∀ i, op i = Except.error (es i)) :
    ∀ fuel attempt acc, 1 ≤ fuel →
      ∃ m, 1 ≤ m ∧ m ≤ fuel ∧
        retryFrom op p fuel attempt acc =
          { success := false, result := Option.none,
            attempts := acc.length + m,
            last_exception := some (es (attempt + m - 1)),
            exceptions :=
              acc ++ (List.range m).map (fun j => es (attempt + j)) } := by
  intro fuel
  induction fuel with
  | zero => intro attempt acc h; omega
  | succ f ih =>
    intro attempt acc _
    by_cases hf : 1 ≤ f
    · by_cases hr : p.should_retry (es attempt) attempt
      · obtain ⟨m, hm1, hmf, heq⟩ := ih (attempt + 1) (acc ++ [es attempt]) hf
        refine ⟨m + 1, by omega, by omega, ?_⟩
        rw [retryFrom, hop attempt]
        simp only [hr, if_true]
        rw [heq]
        have hrange : (List.range (m + 1)).map (fun j => es (attempt + j)) =
            es attempt :: (List.range m).map (fun j => es (attempt + 1 + j)) := by
          rw [List.range_succ_eq_map]
          simp only [List.map_cons, List.map_map]
          congr 1
          apply List.map_congr_left
          intro j _
          simp only [Function.comp_apply]
          congr 1
          omega
        have h1 : (acc ++ [es attempt]).length + m = acc.length + (m + 1) := by
          simp only [List.length_append, List.length_singleton]
          omega
        have h2 : some (es (attempt + 1 + m - 1)) =
            some (es (attempt + (m + 1) - 1)) :=
          congrArg (fun t => some (es t)) (by omega)
        have h3 : acc ++ [es attempt] ++
            (List.range m).map (fun j => es (attempt + 1 + j)) =
            acc ++ (List.range (m + 1)).map (fun j => es (attempt + j)) := by
          rw [hrange, List.append_assoc, List.singleton_append]
        rw [h1, h2, h3]
      · refine ⟨1, le_rfl, by omega, ?_⟩
        rw [retryFrom, hop attempt]
        simp only [hr, if_false, Bool.false_eq_true]
        simp [List.range_succ]
    · have hf0 : f = 0 := by omega
      subst hf0
      refine ⟨1, le_rfl, le_rfl, ?_⟩
      rw [retryFrom, hop attempt]
      by_cases hr : p.should_retry (es attempt) attempt
      · simp only [hr, if_true]
        rw [retryFrom]
        simp [List.range_succ, List.getLast?_append]
      · simp only [hr, if_false, Bool.false_eq_true]
        simp [List.range_succ]

/-- The loop of `retry_async`, when the operation fails with a retryable
exception at each attempt strictly before `attempt + k` (all below
`max_attempts`) and succeeds at attempt `attempt + k`, returns success
with that attempt number and exactly the `k` recorded exceptions. -/
theorem retryFrom_eventually_ok {α : Type} (op : Nat → Except Exc α)
    (p : RetryPolicy) (es : Nat → Exc) (v : α) :
    ∀ k fuel attempt acc, k < fuel →
      (∀ i, attempt ≤ i → i < attempt + k →
        op i = Except.error (es i) ∧ p.retryable (es i) = true ∧
          i < p.max_attempts) →
      op (attempt + k) = Except.ok v →
      retryFrom op p fuel attempt acc =
        { success := true, result := some v, attempts := attempt + k,
          last_exception := Option.none,
          exceptions :=
            acc ++ (List.range k).map (fun j => es (attempt + j)) } := by
  intro k
  induction k with
  | zero =>
    intro fuel attempt acc hfuel _ hok
    obtain ⟨f, rfl⟩ : ∃ f, fuel = f + 1 := ⟨fuel - 1, by omega⟩
    rw [Nat.add_zero] at hok
    rw [retryFrom, hok]
    simp
  | succ n ih =>
    intro fuel attempt acc hfuel hfail hok
    obtain ⟨f, rfl⟩ : ∃ f, fuel = f + 1 := ⟨fuel - 1, by omega⟩
    obtain ⟨herr, hretry, hlt⟩ :=
      hfail attempt le_rfl (by omega)
    rw [retryFrom, herr]
    have hsr : p.should_retry (es attempt) attempt = true := by
      unfold RetryPolicy.should_retry
      simp [Nat.not_le.mpr hlt, hretry]
    simp only [hsr, if_true]
    have := ih f (attempt + 1) (acc ++ [es attempt]) (by omega)
      (fun i h1 h2 => hfail i (by omega) (by omega)) (by
        have : attempt + 1 + n = attempt + (n + 1) := by omega
        rw [this]; exact hok)
    rw [this]
    have hrange : (List.range (n + 1)).map (fun j => es (attempt + j)) =
        es attempt :: (List.range n).map (fun j => es (attempt + 1 + j)) := by
      rw [List.range_succ_eq_map]
      simp only [List.map_cons, List.map_map]
      congr 1
      apply List.map_congr_left
      intro j _
      simp only [Function.comp_apply]
      congr 1
      omega
    have h3 : acc ++ [es attempt] ++
        (List.range n).map (fun j => es (attempt + 1 + j)) =
        acc ++ (List.range (n + 1)).map (fun j => es (attempt + j)) := by
      rw [hrange, List.append_assoc, List.singleton_append]
    have h4 : attempt + 1 + n = attempt + (n + 1) := by omega
    rw [h3, h4]

/-- C5: `retry_async` with an operation that raises retryable exceptions
on its first `k` invocations and succeeds on invocation `k + 1`, under a
policy with `max_attempts > k`, returns `success = true`, the
operation's value, `attempts = k + 1` and exactly those `k` exceptions;
with an operation that fails on every invocation it returns
`success = false`, `result = none`, the final exception as
`last_exception`, and the exception of every attempt made. -/
theorem retry_async_spec {α : Type} (p : RetryPolicy) (es : Nat → Exc) :
    (∀ (op : Nat → Except Exc α) (k : Nat) (v : α),
      k < p.max_attempts →
      (∀ i, 1 ≤ i → i ≤ k → op i = Except.error (es i) ∧
        p.retryable (es i) = true) →
      op (k + 1) = Except.ok v →
      retry_async op p =
        { success := true, result := some v, attempts := k + 1,
          last_exception := Option.none,
          exceptions := (List.range k).map (fun j => es (1 + j)) }) ∧
    (∀ (op : Nat → Except Exc α), 1 ≤ p.max_attempts →
      (∀ i, op i = Except.error (es i)) →
      ∃ m, 1 ≤ m ∧ m ≤ p.max_attempts ∧
        retry_async op p =
          { success := false, result := Option.none, attempts := m,
            last_exception := some (es m),
            exceptions := (List.range m).map (fun j => es (1 + j)) }) := by
  constructor
  · intro op k v hk hfail hok
    have := retryFrom_eventually_ok op p es v k p.max_attempts 1 [] hk
      (fun i h1 h2 => by
        obtain ⟨h3, h4⟩ := hfail i h1 (by omega)
        exact ⟨h3, h4, by omega⟩)
      (by rw [Nat.add_comm 1 k]; exact hok)
    rw [retry_async, this]
    simp [Nat.add_comm 1 k]
  · intro op hmax hop
    obtain ⟨m, hm1, hm2, heq⟩ :=
      retryFrom_all_fail op p es hop p.max_attempts 1 [] hmax
    refine ⟨m, hm1, hm2, ?_⟩
    rw [retry_async, heq]
    have h1 : 1 + m - 1 = m := by omega
    simp only [List.nil_append, List.length_nil, Nat.zero_add, h1]

/-- Witness for `retry_async_spec`: a concrete operation failing twice
then succeeding under the default three-attempt policy, and one that
always fails. -/
theorem retry_async_spec_witness :
    (retry_async (α := Nat)
        (fun i => if i ≤ 2 then Except.error ⟨"E", s!"boom{i}"⟩
          else Except.ok 7)
        DEFAULT_AGENT_RETRY_POLICY =
      { success := true, result := some 7, attempts := 3,
        last_exception := Option.none,
        exceptions := [⟨"E", "boom1"⟩, ⟨"E", "boom2"⟩] }) ∧
    (∃ m, 1 ≤ m ∧ m ≤ DEFAULT_AGENT_RETRY_POLICY.max_attempts ∧
      retry_async (α := Nat)
          (fun i => Except.error ⟨"E", s!"boom{i}"⟩)
          DEFAULT_AGENT_RETRY_POLICY =
        { success := false, result := Option.none, attempts := m,
          last_exception := some ⟨"E", s!"boom{m}"⟩,
          exceptions := (List.range m).map
            (fun j => ⟨"E", s!"boom{1 + j}"⟩) }) := by
  have h := retry_async_spec (α := Nat) DEFAULT_AGENT_RETRY_POLICY
    (fun i => ⟨"E", s!"boom{i}"⟩)
  constructor
  · have := h.1
      (fun i => if i ≤ 2 then Except.error ⟨"E", s!"boom{i}"⟩
        else Except.ok 7) 2 7 (by decide)
      (fun i h1 h2 => by
        constructor
        · simp [show i ≤ 2 from h2]
        · rfl)
      (by rfl)
    rw [this]
    rfl
  · exact h.2 (fun i => Except.error ⟨"E", s!"boom{i}"⟩) (by decide)
      (fun i => rfl)

/-- C6: `compute_delay` equals the strategy formula capped at
`max_delay_seconds` before the jitter term is added; ignoring jitter it
is monotonically non-decreasing in the attempt under the linear and
exponential strategies; and `should_retry` is false from
`max_attempts` on, otherwise exactly the retryable-exception check. -/
theorem retry_policy_delay_spec :
    (∀ (p : RetryPolicy) (a : Nat),
      (p.backoff_strategy = BackoffStrategy.constant →
        p.compute_delay_pre a = min p.base_delay_seconds p.max_delay_seconds) ∧
      (p.backoff_strategy = BackoffStrategy.linear →
        p.compute_delay_pre a =
          min (p.base_delay_seconds * a) p.max_delay_seconds) ∧
      (p.backoff_strategy = BackoffStrategy.exponential →
        p.compute_delay_pre a =
          min (p.base_delay_seconds * 2 ^ (a - 1)) p.max_delay_seconds) ∧
      p.compute_delay_pre a ≤ p.max_delay_seconds) ∧
    (∀ (p : RetryPolicy) (a : Nat) (u : ℚ),
      p.compute_delay a u = p.compute_delay_pre a +
        (if p.jitter > 0 then p.compute_delay_pre a * p.jitter * u else 0)) ∧
    (∀ (p : RetryPolicy), 0 ≤ p.base_delay_seconds →
      (p.backoff_strategy = BackoffStrategy.linear ∨
        p.backoff_strategy = BackoffStrategy.exponential) →
      ∀ {a b : Nat}, a ≤ b →
        p.compute_delay_pre a ≤ p.compute_delay_pre b) ∧
    (∀ (p : RetryPolicy) (e : Exc) (a : Nat),
      (p.max_attempts ≤ a → p.should_retry e a = false) ∧
      (a < p.max_attempts → p.should_retry e a = p.retryable e)) := by
  refine ⟨?_, ?_, ?_, ?_⟩
  · intro p a
    refine ⟨?_, ?_, ?_, compute_delay_pre_le_cap p a⟩ <;>
      intro h <;> unfold RetryPolicy.compute_delay_pre <;> rw [h]
  · intro p a u
    unfold RetryPolicy.compute_delay
    by_cases h : p.jitter > 0 <;> simp [h]
  · intro p hbase hstrat a b hab
    exact compute_delay_pre_mono p hbase hstrat hab
  · intro p e a
    constructor <;> intro h <;> unfold RetryPolicy.should_retry
    · simp [Nat.le_of_lt_succ, h]
    · simp [Nat.not_le.mpr h]

/-- Witness for `retry_policy_delay_spec` at the default policy. -/
theorem retry_policy_delay_spec_witness :
    DEFAULT_AGENT_RETRY_POLICY.compute_delay_pre 2 =
        min (DEFAULT_AGENT_RETRY_POLICY.base_delay_seconds * 2 ^ (2 - 1))
          DEFAULT_AGENT_RETRY_POLICY.max_delay_seconds ∧
      DEFAULT_AGENT_RETRY_POLICY.compute_delay_pre 2 ≤
        DEFAULT_AGENT_RETRY_POLICY.compute_delay_pre 3 ∧
      DEFAULT_AGENT_RETRY_POLICY.should_retry ⟨"E", "x"⟩ 3 = false := by
  refine ⟨((retry_policy_delay_spec.1 DEFAULT_AGENT_RETRY_POLICY 2).2.2.1 rfl),
    retry_policy_delay_spec.2.2.1 DEFAULT_AGENT_RETRY_POLICY
      (by norm_num [DEFAULT_AGENT_RETRY_POLICY]) (Or.inr rfl) (by norm_num),
    (retry_policy_delay_spec.2.2.2 DEFAULT_AGENT_RETRY_POLICY ⟨"E", "x"⟩ 3).1
      (by decide)⟩

/-! ## Circuit breaker (src/orchestrator/circuit_breaker.py)

`time.time()` is passed in as `now`; the timestamps a single `call`
takes are identified.  The wrapped function's behavior is passed as its
outcome (`Except.ok` / `Except.error`), consumed only when the call is
not rejected.  The per-breaker `asyncio.Lock` serializes state updates;
under that discipline one `call` is the atomic step modelled here. -/

/-- Circuit breaker states. -/
inductive CircuitState where
  | closed
  | open_
  | half_open
deriving DecidableEq, Repr

/-- Configuration for circuit breaker behavior; `excluded` is the
`isinstance(exc, excluded_exceptions)` predicate. -/
structure CircuitBreakerConfig where
  failure_threshold : Nat := 5
  success_threshold : Nat := 2
  timeout_seconds : ℚ := 30
  excluded : Exc → Bool := fun _ => false

/-- Statistics for circuit breaker monitoring. -/
structure CircuitStats where
  total_calls : Nat := 0
  successful_calls : Nat := 0
  failed_calls : Nat := 0
  rejected_calls : Nat := 0
  last_failure_time : Option ℚ := Option.none
  last_success_time : Option ℚ := Option.none
  consecutive_failures : Nat := 0
  consecutive_successes : Nat := 0
deriving DecidableEq, Repr

/-- A circuit breaker instance (state, stats, `_opened_at`). -/
structure CircuitBreaker where
  name : String
  config : CircuitBreakerConfig
  state : CircuitState := CircuitState.closed
  stats : CircuitStats := {}
  opened_at : Option ℚ := Option.none

/-- A fresh breaker, as the dataclass constructor builds it. -/
def CircuitBreaker.init (name : String) (config : CircuitBreakerConfig) :
    CircuitBreaker :=
  { name := name, config := config }

/-- `CircuitBreaker._open`. -/
def CircuitBreaker.toOpen (cb : CircuitBreaker) (now : ℚ) : CircuitBreaker :=
  { cb with
    state := CircuitState.open_,
    opened_at := some now,
    stats := { cb.stats with consecutive_successes := 0 } }

/-- `CircuitBreaker._half_open`. -/
def CircuitBreaker.toHalfOpen (cb : CircuitBreaker) : CircuitBreaker :=
  { cb with
    state := CircuitState.half_open,
    stats := { cb.stats with
      consecutive_successes := 0,
      consecutive_failures := 0 } }

/-- `CircuitBreaker._close`. -/
def CircuitBreaker.toClosed (cb : CircuitBreaker) : CircuitBreaker :=
  { cb with
    state := CircuitState.closed,
    opened_at := Option.none,
    stats := { cb.stats with consecutive_failures := 0 } }

/-- `CircuitBreaker._on_success`. -/
def CircuitBreaker.on_success (cb : CircuitBreaker) (now : ℚ) :
    CircuitBreaker :=
  let stats := { cb.stats with
    successful_calls := cb.stats.successful_calls + 1,
    consecutive_successes := cb.stats.consecutive_successes + 1,
    consecutive_failures := 0,
    last_success_time := some now }
  let cb := { cb with stats := stats }
  if cb.state = CircuitState.half_open then
    if cb.config.success_threshold ≤ stats.consecutive_successes then
      cb.toClosed
    else cb
  else cb

/-- `CircuitBreaker._on_failure`. -/
def CircuitBreaker.on_failure (cb : CircuitBreaker) (now : ℚ) :
    CircuitBreaker :=
  let stats := { cb.stats with
    failed_calls := cb.stats.failed_calls + 1,
    consecutive_failures := cb.stats.consecutive_failures + 1,
    consecutive_successes := 0,
    last_failure_time := some now }
  let cb := { cb with stats := stats }
  if cb.state = CircuitState.half_open then
    cb.toOpen now
  else if cb.state = CircuitState.closed then
    if cb.config.failure_threshold ≤ stats.consecutive_failures then
      cb.toOpen now
    else cb
  else cb

/-- `CircuitBreaker._maybe_transition_to_half_open`. -/
def CircuitBreaker.maybe_transition_to_half_open (cb : CircuitBreaker)
    (now : ℚ) : CircuitBreaker :=
  if cb.state ≠ CircuitState.open_ then cb
  else
    match cb.opened_at with
    | Option.none => cb
    | some t =>
        if cb.config.timeout_seconds ≤ now - t then cb.toHalfOpen else cb

/-- `CircuitBreaker._time_until_half_open`. -/
def CircuitBreaker.time_until_half_open (cb : CircuitBreaker) (now : ℚ) : ℚ :=
  match cb.opened_at with
  | Option.none => 0
  | some t => max 0 (cb.config.timeout_seconds - (now - t))

/-- What a `call` through the breaker does for the caller: an
open-circuit rejection (`CircuitBreakerOpen` with the remaining
cooldown), the wrapped function's value, or its re-raised exception. -/
inductive CallOutcome where
  | rejected (remaining : ℚ)
  | ok (v : Value)
  | err (e : Exc)

/-- `CircuitBreaker.call`: reject while open, otherwise invoke the
wrapped function (whose behavior is `outcome`) and update state. -/
def CircuitBreaker.call (cb : CircuitBreaker) (now : ℚ)
    (outcome : Except Exc Value) : CallOutcome × CircuitBreaker :=
  let cb := cb.maybe_transition_to_half_open now
  if cb.state = CircuitState.open_ then
    let cb := { cb with stats :=
      { cb.stats with rejected_calls := cb.stats.rejected_calls + 1 } }
    (CallOutcome.rejected (cb.time_until_half_open now), cb)
  else
    let cb := { cb with stats :=
      { cb.stats with total_calls := cb.stats.total_calls + 1 } }
    match outcome with
    | Except.ok v => (CallOutcome.ok v, cb.on_success now)
    | Except.error e =>
        if cb.config.excluded e then (CallOutcome.err e, cb)
        else (CallOutcome.err e, cb.on_failure now)

/-- Repeated calls with a fixed outcome (probing the same dependency). -/
def iterateCalls (cb : CircuitBreaker) (now : ℚ)
    (outcome : Except Exc Value) : Nat → CircuitBreaker
  | 0 => cb
  | n + 1 => ((iterateCalls cb now outcome n).call now outcome).2

theorem call_closed_fail (cb : CircuitBreaker) (now : ℚ) (e : Exc)
    (hstate : cb.state = CircuitState.closed)
    (hex : cb.config.excluded e = false)
    (hlt : cb.stats.consecutive_failures + 1 < cb.config.failure_threshold) :
    cb.call now (Except.error e) =
      (CallOutcome.err e,
        { cb with stats := { cb.stats with
            total_calls := cb.stats.total_calls + 1,
            failed_calls := cb.stats.failed_calls + 1,
            consecutive_failures := cb.stats.consecutive_failures + 1,
            consecutive_successes := 0,
            last_failure_time := some now } }) := by
  unfold CircuitBreaker.call CircuitBreaker.maybe_transition_to_half_open
    CircuitBreaker.on_failure
  simp [hstate, hex, Nat.not_le.mpr hlt]

theorem call_closed_fail_open (cb : CircuitBreaker) (now : ℚ) (e : Exc)
    (hstate : cb.state = CircuitState.closed)
    (hex : cb.config.excluded e = false)
    (hge : cb.config.failure_threshold ≤ cb.stats.consecutive_failures + 1) :
    cb.call now (Except.error e) =
      (CallOutcome.err e,
        { cb with
          state := CircuitState.open_,
          opened_at := some now,
          stats := { cb.stats with
            total_calls := cb.stats.total_calls + 1,
            failed_calls := cb.stats.failed_calls + 1,
            consecutive_failures := cb.stats.consecutive_failures + 1,
            consecutive_successes := 0,
            last_failure_time := some now } }) := by
  unfold CircuitBreaker.call CircuitBreaker.maybe_transition_to_half_open
    CircuitBreaker.on_failure CircuitBreaker.toOpen
  simp [hstate, hex, hge]

theorem call_open_rejected (cb : CircuitBreaker) (now t : ℚ)
    (o : Except Exc Value)
    (hstate : cb.state = CircuitState.open_)
    (hat : cb.opened_at = some t)
    (hfresh : now - t < cb.config.timeout_seconds) :
    cb.call now o =
      (CallOutcome.rejected (cb.config.timeout_seconds - (now - t)),
        { cb with stats := { cb.stats with
            rejected_calls := cb.stats.rejected_calls + 1 } }) := by
  unfold CircuitBreaker.call CircuitBreaker.maybe_transition_to_half_open
    CircuitBreaker.time_until_half_open
  simp [hstate, hat, not_le.mpr hfresh, le_of_lt hfresh]

theorem call_open_elapsed_ok (cb : CircuitBreaker) (now t : ℚ) (v : Value)
    (hstate : cb.state = CircuitState.open_)
    (hat : cb.opened_at = some t)
    (hel : cb.config.timeout_seconds ≤ now - t) :
    (cb.call now (Except.ok v)).1 = CallOutcome.ok v ∧
      ((cb.call now (Except.ok v)).2).stats.total_calls =
        cb.stats.total_calls + 1 ∧
      ((cb.call now (Except.ok v)).2).state =
        (if cb.config.success_threshold ≤ 1 then CircuitState.closed
          else CircuitState.half_open) := by
  unfold CircuitBreaker.call CircuitBreaker.maybe_transition_to_half_open
    CircuitBreaker.toHalfOpen CircuitBreaker.on_success CircuitBreaker.toClosed
  by_cases h1 : cb.config.success_threshold ≤ 1 <;>
    simp [hstate, hat, hel, h1]

theorem call_open_elapsed_fail (cb : CircuitBreaker) (now t : ℚ) (e : Exc)
    (hstate : cb.state = CircuitState.open_)
    (hat : cb.opened_at = some t)
    (hel : cb.config.timeout_seconds ≤ now - t)
    (hex : cb.config.excluded e = false) :
    (cb.call now (Except.error e)).1 = CallOutcome.err e ∧
      ((cb.call now (Except.error e)).2).stats.total_calls =
        cb.stats.total_calls + 1 ∧
      ((cb.call now (Except.error e)).2).state = CircuitState.open_ ∧
      ((cb.call now (Except.error e)).2).opened_at = some now := by
  unfold CircuitBreaker.call CircuitBreaker.maybe_transition_to_half_open
    CircuitBreaker.toHalfOpen CircuitBreaker.on_failure CircuitBreaker.toOpen
  simp [hstate, hat, hel, hex]

theorem call_half_open_success (cb : CircuitBreaker) (now : ℚ) (v : Value)
    (hstate : cb.state = CircuitState.half_open)
    (hlt : cb.stats.consecutive_successes + 1 <
      cb.config.success_threshold) :
    cb.call now (Except.ok v) =
      (CallOutcome.ok v,
        { cb with stats := { cb.stats with
            total_calls := cb.stats.total_calls + 1,
            successful_calls := cb.stats.successful_calls + 1,
            consecutive_successes := cb.stats.consecutive_successes + 1,
            consecutive_failures := 0,
            last_success_time := some now } }) := by
  unfold CircuitBreaker.call CircuitBreaker.maybe_transition_to_half_open
    CircuitBreaker.on_success
  simp [hstate, Nat.not_le.mpr hlt]

theorem call_half_open_success_close (cb : CircuitBreaker) (now : ℚ)
    (v : Value)
    (hstate : cb.state = CircuitState.half_open)
    (hge : cb.config.success_threshold ≤
      cb.stats.consecutive_successes + 1) :
    cb.call now (Except.ok v) =
      (CallOutcome.ok v,
        { cb with
          state := CircuitState.closed,
          opened_at := Option.none,
          stats := { cb.stats with
            total_calls := cb.stats.total_calls + 1,
            successful_calls := cb.stats.successful_calls + 1,
            consecutive_successes := cb.stats.consecutive_successes + 1,
            consecutive_failures := 0,
            last_success_time := some now } }) := by
  unfold CircuitBreaker.call CircuitBreaker.maybe_transition_to_half_open
    CircuitBreaker.on_success CircuitBreaker.toClosed
  simp [hstate, hge]

theorem call_half_open_fail (cb : CircuitBreaker) (now : ℚ) (e : Exc)
    (hstate : cb.state = CircuitState.half_open)
    (hex : cb.config.excluded e = false) :
    cb.call now (Except.error e) =
      (CallOutcome.err e,
        { cb with
          state := CircuitState.open_,
          opened_at := some now,
          stats := { cb.stats with
            total_calls := cb.stats.total_calls + 1,
            failed_calls := cb.stats.failed_calls + 1,
            consecutive_failures := cb.stats.consecutive_failures + 1,
            consecutive_successes := 0,
            last_failure_time := some now } }) := by
  unfold CircuitBreaker.call CircuitBreaker.maybe_transition_to_half_open
    CircuitBreaker.on_failure CircuitBreaker.toOpen
  simp [hstate, hex]

theorem iterate_closed_failures (cb : CircuitBreaker) (now : ℚ) (e : Exc)
    (hstate : cb.state = CircuitState.closed)
    (hzero : cb.stats.consecutive_failures = 0)
    (hex : cb.config.excluded e = false) :
    ∀ k, k < cb.config.failure_threshold →
      (iterateCalls cb now (Except.error e) k).state = CircuitState.closed ∧
      (iterateCalls cb now (Except.error e) k).stats.consecutive_failures = k ∧
      (iterateCalls cb now (Except.error e) k).config = cb.config := by
  intro k
  induction k with
  | zero => intro _; exact ⟨hstate, hzero, rfl⟩
  | succ n ih =>
    intro hlt
    obtain ⟨h1, h2, h3⟩ := ih (by omega)
    rw [iterateCalls, call_closed_fail _ now e h1
      (by rw [h3]; exact hex) (by rw [h2, h3]; exact hlt)]
    exact ⟨h1, by rw [h2], h3⟩

theorem iterate_half_open_successes (cb : CircuitBreaker) (now : ℚ)
    (v : Value)
    (hstate : cb.state = CircuitState.half_open)
    (hzero : cb.stats.consecutive_successes = 0) :
    ∀ k, k < cb.config.success_threshold →
      (iterateCalls cb now (Except.ok v) k).state = CircuitState.half_open ∧
      (iterateCalls cb now (Except.ok v) k).stats.consecutive_successes = k ∧
      (iterateCalls cb now (Except.ok v) k).config = cb.config := by
  intro k
  induction k with
  | zero => intro _; exact ⟨hstate, hzero, rfl⟩
  | succ n ih =>
    intro hlt
    obtain ⟨h1, h2, h3⟩ := ih (by omega)
    rw [iterateCalls, call_half_open_success _ now v h1
      (by rw [h2, h3]; exact hlt)]
    exact ⟨h1, by rw [h2], h3⟩

/-- C7: the circuit breaker's finite state machine.  From a fresh closed
breaker, exactly `failure_threshold` consecutive non-excluded failures
open the circuit; calls while open and within the cooldown are rejected
with the remaining seconds, count as rejections and do not consume the
wrapped function's outcome; once the cooldown has elapsed the next call
goes to half-open and is actually attempted; `success_threshold`
consecutive successes in half-open close the circuit; one non-excluded
failure in half-open re-opens it with a fresh `opened_at`. -/
theorem circuit_breaker_fsm_spec :
    (∀ (name : String) (cfg : CircuitBreakerConfig) (now : ℚ) (e : Exc),
      1 ≤ cfg.failure_threshold → cfg.excluded e = false →
      (∀ k, k < cfg.failure_threshold →
        (iterateCalls (CircuitBreaker.init name cfg) now (Except.error e)
          k).state = CircuitState.closed) ∧
      (iterateCalls (CircuitBreaker.init name cfg) now (Except.error e)
        cfg.failure_threshold).state = CircuitState.open_ ∧
      (iterateCalls (CircuitBreaker.init name cfg) now (Except.error e)
        cfg.failure_threshold).opened_at = some now) ∧
    (∀ (cb : CircuitBreaker) (now t : ℚ) (o : Except Exc Value),
      cb.state = CircuitState.open_ → cb.opened_at = some t →
      now - t < cb.config.timeout_seconds →
      cb.call now o =
        (CallOutcome.rejected (cb.config.timeout_seconds - (now - t)),
          { cb with stats := { cb.stats with
              rejected_calls := cb.stats.rejected_calls + 1 } })) ∧
    (∀ (cb : CircuitBreaker) (now t : ℚ) (v : Value) (e : Exc),
      cb.state = CircuitState.open_ → cb.opened_at = some t →
      cb.config.timeout_seconds ≤ now - t → cb.config.excluded e = false →
      ((cb.call now (Except.ok v)).1 = CallOutcome.ok v ∧
        ((cb.call now (Except.ok v)).2).stats.total_calls =
          cb.stats.total_calls + 1) ∧
      ((cb.call now (Except.error e)).1 = CallOutcome.err e ∧
        ((cb.call now (Except.error e)).2).state = CircuitState.open_ ∧
        ((cb.call now (Except.error e)).2).opened_at = some now)) ∧
    (∀ (cb : CircuitBreaker) (now : ℚ) (v : Value),
      cb.state = CircuitState.half_open →
      cb.stats.consecutive_successes = 0 →
      1 ≤ cb.config.success_threshold →
      (∀ k, k < cb.config.success_threshold →
        (iterateCalls cb now (Except.ok v) k).state =
          CircuitState.half_open) ∧
      (iterateCalls cb now (Except.ok v)
        cb.config.success_threshold).state = CircuitState.closed) ∧
    (∀ (cb : CircuitBreaker) (now : ℚ) (e : Exc),
      cb.state = CircuitState.half_open → cb.config.excluded e = false →
      ((cb.call now (Except.error e)).2).state = CircuitState.open_ ∧
      ((cb.call now (Except.error e)).2).opened_at = some now) := by
  refine ⟨?_, ?_, ?_, ?_, ?_⟩
  · intro name cfg now e h1 hex
    have hiter := iterate_closed_failures (CircuitBreaker.init name cfg) now e
      rfl rfl hex
    refine ⟨fun k hk => (hiter k hk).1, ?_⟩
    obtain ⟨hs, hc, hcfg⟩ := hiter (cfg.failure_threshold - 1)
      (by simp only [CircuitBreaker.init]; omega)
    have hstep : cfg.failure_threshold =
        (cfg.failure_threshold - 1) + 1 := by omega
    rw [hstep, iterateCalls, call_closed_fail_open _ now e hs
      (by rw [hcfg]; exact hex)
      (by rw [hc, hcfg]; simp only [CircuitBreaker.init]; omega)]
    exact ⟨rfl, rfl⟩
  · intro cb now t o h1 h2 h3
    exact call_open_rejected cb now t o h1 h2 h3
  · intro cb now t v e h1 h2 h3 hex
    obtain ⟨ha, hb, _⟩ := call_open_elapsed_ok cb now t v h1 h2 h3
    obtain ⟨hc, _, hd, he⟩ := call_open_elapsed_fail cb now t e h1 h2 h3 hex
    exact ⟨⟨ha, hb⟩, ⟨hc, hd, he⟩⟩
  · intro cb now v h1 h2 h3
    have hiter := iterate_half_open_successes cb now v h1 h2
    refine ⟨fun k hk => (hiter k hk).1, ?_⟩
    obtain ⟨hs, hc, hcfg⟩ :=
      hiter (cb.config.success_threshold - 1) (by omega)
    have hstep : cb.config.success_threshold =
        (cb.config.success_threshold - 1) + 1 := by omega
    rw [hstep, iterateCalls, call_half_open_success_close _ now v hs
      (by rw [hc, hcfg]; omega)]
  · intro cb now e h1 hex
    rw [call_half_open_fail cb now e h1 hex]
    exact ⟨rfl, rfl⟩

/-- Witness for `circuit_breaker_fsm_spec` at a concrete two-failure /
two-success configuration. -/
theorem circuit_breaker_fsm_spec_witness :
    (iterateCalls (CircuitBreaker.init "llm"
        { failure_threshold := 2, success_threshold := 2,
          timeout_seconds := 30, excluded := fun _ => false })
      0 (Except.error ⟨"E", "down"⟩) 1).state = CircuitState.closed ∧
    (iterateCalls (CircuitBreaker.init "llm"
        { failure_threshold := 2, success_threshold := 2,
          timeout_seconds := 30, excluded := fun _ => false })
      0 (Except.error ⟨"E", "down"⟩) 2).state = CircuitState.open_ := by
  have h := circuit_breaker_fsm_spec.1 "llm"
    { failure_threshold := 2, success_threshold := 2,
      timeout_seconds := 30, excluded := fun _ => false }
    0 ⟨"E", "down"⟩ (by decide) rfl
  exact ⟨h.1 1 (by decide), h.2.1⟩

/-! ## Orchestrator service data model (src/orchestrator/service.py)

The plan/step/execution documents are plain Python dicts in the source;
here the fixed keys the orchestrator reads and writes are structure
fields (a missing key is `Option.none`), and free-form payloads stay
`Dict`.  `deepcopy` on these immutable values is the identity, so the
`deepcopy` calls of the source appear only as comments; the sharing
they prevent is analysed separately in the heap model at the end of
this file.  Step ids within one plan are assumed unique (the graph
invariant), so first-match lookup models Python's dict comprehension
over `plan["steps"]`. -/

/-- One entry of a step's `supporting_agents` list. -/
structure SupportSpec where
  agent : String
  role : Value := Value.none
  description : Value := Value.none
  expected_artifacts : List Value := []

/-- One entry of a step result's `supporting_outputs` list. -/
structure SupportResult where
  agent : String
  role : Value := Value.none
  description : Value := Value.none
  status : Option String := Option.none
  error : Option String := Option.none
  output : Option Dict := Option.none
  artifacts : Option Dict := Option.none
  retry_attempts : Option Nat := Option.none

/-- A step document: a task-graph node materialized into the plan's
`steps` list, mutated in place by `execute`. -/
structure StepDoc where
  id : String
  agent : String
  dependencies : List String := []
  expected_artifacts : List Value := []
  phase : Value := Value.none
  required_connectors : List String := []
  supporting_agents : List SupportSpec := []
  status : Option String := Option.none
  error : Option String := Option.none
  output : Option Dict := Option.none
  artifacts : Option Dict := Option.none
  missing_signals : Option (List String) := Option.none
  supporting_outputs : Option (List SupportResult) := Option.none

/-- One entry of an execution record's `steps` list. -/
structure StepResult where
  id : String
  agent : String
  dependencies : List String := []
  expected_artifacts : List Value := []
  phase : Value := Value.none
  status : Option String := Option.none
  error : Option String := Option.none
  output : Option Dict := Option.none
  artifacts : Option Dict := Option.none
  retry_attempts : Option Nat := Option.none
  missing_signals : Option (List String) := Option.none
  supporting_outputs : Option (List SupportResult) := Option.none

/-- One event recorded by the `TraceRecorder` collaborator. -/
structure TraceEvent where
  event : String
  node_id : String
  agent : String
  phase : Value := Value.none
  status : Option String := Option.none

/-- An agent's `run(input)` behavior: a function of the input and of the
attempt number (one invocation per retry attempt). -/
abbrev AgentBehavior := Dict → Nat → Except Exc Dict

/-- A persisted plan document. `graph` stands for the plan's `graph`
payload through the TaskGraph `as_dict`/`from_dict` round-trip, recorded
directly as the deterministic topological node order `execute` walks.
Modelled from the spec: TaskGraph itself (orchestrator/task_graph.py)
is not among the sources; per the spec its serialization round-trips
exactly and `topological_order` is deterministic, so only that order is
represented.  Likewise `to_linear_steps` is the one-entry-per-node
linear projection in topological order. -/
structure Plan where
  plan_id : String
  status : String
  matter : Dict
  graph : List StepDoc
  steps : List StepDoc
  connectors : List Value := []

/-- A persisted execution record. -/
structure ExecutionRecord where
  plan_id : String
  status : String
  steps : List StepResult
  artifacts : Dict := []
  trace : List TraceEvent := []
  re_execution : Bool := false

/-- The persisted `State` aggregate (plans and executions keyed by plan
id), as the repository stores it.  The service's TTL cache always
reloads before a mutating operation and writes through on save, so the
aggregate itself is the observable state. -/
structure OrchState where
  plans : List (String × Plan) := []
  executions : List (String × ExecutionRecord) := []

/-- `State.remember_plan` / `remember_execution`: replace-or-append. -/
def astore {β : Type} (xs : List (String × β)) (k : String) (v : β) :
    List (String × β) :=
  match xs with
  | [] => [(k, v)]
  | (k', v') :: rest =>
      if k' = k then (k, v) :: rest else (k', v') :: astore rest k v

/-- `State.recall_plan` / `recall_execution`. -/
def alookup {β : Type} (xs : List (String × β)) (k : String) : Option β :=
  match xs with
  | [] => Option.none
  | (k', v) :: rest => if k' = k then some v else alookup rest k

/-- The collaborators and configuration `OrchestratorService` holds:
the agent registry, the retry policy, the `ConnectorRegistry`,
`RoutingPolicy.evaluate_exit_conditions` and `build_graph`, the
document-type detector, the connector catalogue and the fresh uuid4
drawn by `plan()`. -/
structure Env where
  agents : List (String × AgentBehavior)
  retry_policy : RetryPolicy := DEFAULT_AGENT_RETRY_POLICY
  resolveConnectors : List String → Dict := fun _ => []
  evalExitConditions : StepDoc → Dict → List String := fun _ _ => []
  detectDocType : Dict → String := fun _ => "memorandum"
  buildGraph : Dict → List StepDoc := fun _ => []
  connectorCatalogue : List Value := []
  freshPlanId : String := "plan-uuid"

mutual

/-- `_find_nested_artifact`: scan the payload's dict values, returning
the first value found under `artifact_name` (Python conflates a found
`None` with absence in the return value of the recursive call). -/
def find_nested_artifact : Dict → String → Value
  | [], _ => Value.none
  | (_, v) :: rest, name =>
      match find_nested_probe v name with
      | some found => found
      | Option.none => find_nested_artifact rest name

/-- One loop iteration of `_find_nested_artifact` on a single payload
value: `some found` is Python's early `return` (a dict containing the
key returns its value even when that value is `None`; a non-`None`
nested hit is returned), `none` is falling through to the next value. -/
def find_nested_probe : Value → String → Option Value
  | Value.dict d', name =>
      if containsKey d' name then some (pyGet d' name)
      else
        match find_nested_artifact d' name with
        | Value.none => Option.none
        | nested => some nested
  | _, _ => Option.none

end

/-- `_collect_expected_artifacts`: for each declared artifact dict with
a truthy name, take the payload's top-level value under that name, else
the nested search's; collect it when it is not `None`.  A non-string
truthy `name` never matches the string-keyed payloads and behaves as a
skip, so only string names are examined. -/
def collect_expected_artifacts (payload : Dict) (expected : List Value) :
    Dict :=
  expected.foldl (fun collected artifact =>
    match artifact with
    | Value.dict ad =>
        match dget ad "name" with
        | some (Value.str name) =>
            if name = "" then collected
            else
              let value := pyGet payload name
              let value :=
                match value with
                | Value.none => find_nested_artifact payload name
                | v => v
              match value with
              | Value.none => collected
              | v => dset collected name v
        | _ => collected
    | _ => collected) []

/-- Python `d.get(k, {})` where the caller goes on to treat the result
as a dict; a present non-dict value would raise in Python and is not
modelled. -/
def getDictDefault (d : Dict) (k : String) : Dict :=
  match dget d k with
  | some (Value.dict m) => m
  | _ => []

/-- Write the determined document type into both the top-level input and
its `metadata` sub-dict (`agent_input["document_type"] = ...;
agent_input.setdefault("metadata", {})["document_type"] = ...`). -/
def setMetaDocType (agent_input : Dict) (dt : Value) : Dict :=
  let meta := getDictDefault agent_input "metadata"
  dset (dset agent_input "document_type" dt) "metadata"
    (Value.dict (dset meta "document_type" dt))

/-- The document-type special case of `execute` before the drafting
agent runs: priority `output_format.document_type`, `document_type`,
`metadata.document_type`, else auto-detect. -/
def ddaPrepare (env : Env) (agent_input : Dict) : Dict :=
  let output_format := getDictDefault agent_input "output_format"
  let c1 := pyGet output_format "document_type"
  let doc_type :=
    if truthy c1 then c1
    else
      let c2 := pyGet agent_input "document_type"
      if truthy c2 then c2
      else pyGet (getDictDefault agent_input "metadata") "document_type"
  if truthy doc_type then setMetaDocType agent_input doc_type
  else setMetaDocType agent_input (Value.str (env.detectDocType agent_input))

/-- The document-type special case of `execute_stream` and
`re_execute`: auto-detect only when `document_type` is absent both at
top level and under `metadata` (a containment check, not truthiness). -/
def ddaPrepareIfAbsent (env : Env) (agent_input : Dict) : Dict :=
  if !containsKey agent_input "document_type" &&
      !containsKey (getDictDefault agent_input "metadata") "document_type" then
    setMetaDocType agent_input (Value.str (env.detectDocType agent_input))
  else agent_input

/-- The agent input before the document-type special case: a deep copy
of the matter snapshot, overlaid with `propagated`, then the resolved
connectors merged under `connectors` via `setdefault`. -/
def baseAgentInput (env : Env) (plan_matter propagated : Dict)
    (step : StepDoc) : Dict :=
  let agent_input := dupdate plan_matter propagated
  let resolved := env.resolveConnectors step.required_connectors
  if resolved.isEmpty then agent_input
  else
    let existing := getDictDefault agent_input "connectors"
    dset agent_input "connectors" (Value.dict (dupdate existing resolved))

/-- The full agent input of `execute` (document-type case applied for
the drafting agent). -/
def buildAgentInput (env : Env) (plan_matter propagated : Dict)
    (step : StepDoc) : Dict :=
  let agent_input := baseAgentInput env plan_matter propagated step
  if step.agent = "dda" then ddaPrepare env agent_input else agent_input

/-- The full agent input of `execute_stream` / `re_execute`. -/
def buildAgentInputLight (env : Env) (plan_matter propagated : Dict)
    (step : StepDoc) : Dict :=
  let agent_input := baseAgentInput env plan_matter propagated step
  if step.agent = "dda" then ddaPrepareIfAbsent env agent_input
  else agent_input

/-- The mutable state of the per-node loop of `execute`. -/
structure LoopState where
  plan_matter : Dict
  plan_steps : List StepDoc
  steps_results : List StepResult := []
  artifacts : Dict := []
  propagated : Dict := []
  overall_status : String := "complete"
  needs_attention : Bool := false
  trace : List TraceEvent := []

/-- Look up an agent in the registry (`self.agents.get(name)`). -/
def lookupAgent (agents : List (String × AgentBehavior)) (name : String) :
    Option AgentBehavior :=
  alookup agents name

/-- Write the in-place mutations of the plan's step back into the
plan's `steps` list; a node absent from the list was materialized by
`node.as_dict()` and its mutations do not reach the plan. -/
def updatePlanStep (steps : List StepDoc) (id : String)
    (f : StepDoc → StepDoc) : List StepDoc :=
  steps.map (fun s => if s.id = id then f s else s)

/-- The state the supporting-agent loop of `execute` threads. -/
structure SupportLoopState where
  plan_matter : Dict
  propagated : Dict
  overall_status : String
  supporting_outputs : List SupportResult := []
  support_failed : Bool := false

/-- One iteration of the supporting-agent loop of `execute`
(service.py lines 328-393). -/
def runSupport (env : Env) (agent_name : String) (step : StepDoc)
    (primary_output : Option Dict) (ss : SupportLoopState)
    (supporting : SupportSpec) : SupportLoopState :=
  let base : SupportResult :=
    { agent := supporting.agent, role := supporting.role,
      description := supporting.description }
  match lookupAgent env.agents supporting.agent with
  | Option.none =>
      let r :=
        { base with
          status := some "failed",
          error := some ("Supporting agent '" ++ supporting.agent ++
            "' is not registered") }
      { ss with
        overall_status := "failed", support_failed := true,
        supporting_outputs := ss.supporting_outputs ++ [r] }
  | some support_agent =>
      let support_input := dupdate (dupdate ss.plan_matter ss.propagated)
        [("primary_agent", Value.str agent_name),
         ("primary_output",
            match primary_output with
            | some d => Value.dict d
            | Option.none => Value.none),
         ("phase", step.phase),
         ("support_role", supporting.role)]
      let rr := retry_async (support_agent support_input) env.retry_policy
      if rr.success then
        -- on success `rr.result` always carries the output dict
        let output := rr.result.getD []
        let r :=
          { base with
            status := some "complete",
            output := some output,
            retry_attempts :=
              if 1 < rr.attempts then some rr.attempts else Option.none }
        let propagated := dset ss.propagated supporting.agent
          (Value.dict output)
        let produced :=
          collect_expected_artifacts output supporting.expected_artifacts
        if produced.isEmpty then
          { ss with
            propagated := propagated,
            supporting_outputs := ss.supporting_outputs ++ [r] }
        else
          { ss with
            propagated := dupdate propagated produced,
            plan_matter := dupdate ss.plan_matter produced,
            supporting_outputs := ss.supporting_outputs ++
              [{ r with artifacts := some produced }] }
      else
        let e := rr.last_exception.getD
          ⟨"Exception", "Supporting agent execution failed"⟩
        let r := { base with status := some "failed", error := some e.msg }
        { ss with
          overall_status := "failed", support_failed := true,
          supporting_outputs := ss.supporting_outputs ++ [r] }

/-- The unregistered-agent outcome of one iteration of `execute`'s
per-node loop (service.py lines 219-226): record a failed step with the
registration error, mark the plan step, and move on. -/
def execNodeUnregistered (st : LoopState) (step : StepDoc)
    (base : StepResult) : LoopState :=
  let err := "Agent '" ++ step.agent ++ "' is not registered"
  { st with
    overall_status := "failed",
    plan_steps := updatePlanStep st.plan_steps step.id
      (fun s => { s with status := some "failed", error := some err }),
    steps_results := st.steps_results ++
      [{ base with status := some "failed", error := some err }] }

/-- The except-branch of one iteration of `execute`'s per-node loop
(service.py lines 281-286 with the 313-324 tail): retries exhausted, the
step records the final exception's message and the loop continues. -/
def execNodeFailure (st : LoopState) (step : StepDoc) (base : StepResult)
    (trace0 : List TraceEvent) (e : Exc) : LoopState :=
  { st with
    overall_status := "failed",
    trace := trace0 ++
      [{ event := "phase_complete", node_id := base.id,
         agent := step.agent, status := some "failed" }],
    plan_steps := updatePlanStep st.plan_steps step.id
      (fun s => { s with status := some "failed", error := some e.msg }),
    steps_results := st.steps_results ++
      [{ base with status := some "failed", error := some e.msg }] }

/-- The tail of the success branch of `execute`'s per-node loop
(service.py lines 395-416): flag the whole step failed when a
supporting agent failed, otherwise evaluate exit conditions against the
mutated plan step and possibly demote to `attention_required`; then
append the step result and write the plan step back. -/
def execNodeFinish (env : Env) (st : LoopState) (stepId : String)
    (artifacts : Dict) (trace1 : List TraceEvent) (ss : SupportLoopState)
    (r : StepResult) (step' : StepDoc) : LoopState :=
  if ss.support_failed then
    { st with
      plan_matter := ss.plan_matter,
      propagated := ss.propagated, artifacts := artifacts,
      overall_status := ss.overall_status, trace := trace1,
      plan_steps := updatePlanStep st.plan_steps stepId
        (fun _ => { step' with status := some "failed" }),
      steps_results := st.steps_results ++
        [{ r with status := some "failed" }] }
  else
    let missing := env.evalExitConditions step'
      (dupdate ss.plan_matter ss.propagated)
    if missing.isEmpty then
      { st with
        plan_matter := ss.plan_matter,
        propagated := ss.propagated, artifacts := artifacts,
        overall_status := ss.overall_status, trace := trace1,
        plan_steps := updatePlanStep st.plan_steps stepId
          (fun _ => step'),
        steps_results := st.steps_results ++ [r] }
    else
      { st with
        plan_matter := ss.plan_matter,
        propagated := ss.propagated, artifacts := artifacts,
        overall_status := ss.overall_status, needs_attention := true,
        trace := trace1,
        plan_steps := updatePlanStep st.plan_steps stepId
          (fun _ =>
            { step' with
              status := some "attention_required",
              missing_signals := some missing }),
        steps_results := st.steps_results ++
          [{ r with
             status := some "attention_required",
             missing_signals := some missing }] }

/-- The else-branch of one iteration of `execute`'s per-node loop
(service.py lines 287-416): record the output, hoist the declared
artifacts, run the supporting agents, then check the exit conditions. -/
def execNodeSuccess (env : Env) (st : LoopState) (step : StepDoc)
    (base : StepResult) (trace0 : List TraceEvent) (output : Dict)
    (attempts : Nat) : LoopState :=
  let r : StepResult :=
    { base with
      status := some "complete", output := some output,
      retry_attempts :=
        if 1 < attempts then some attempts else Option.none }
  let artifacts := dset st.artifacts step.agent (Value.dict output)
  let propagated := dset st.propagated step.agent (Value.dict output)
  let produced := collect_expected_artifacts output step.expected_artifacts
  let propagated :=
    if produced.isEmpty then propagated
    else dupdate propagated produced
  let plan_matter :=
    if produced.isEmpty then st.plan_matter
    else dupdate st.plan_matter produced
  let r :=
    if produced.isEmpty then r
    else { r with artifacts := some produced }
  let step' :=
    { step with
      artifacts :=
        if produced.isEmpty then step.artifacts else some produced,
      status := some "complete", output := some output }
  let trace1 := trace0 ++
    [{ event := "phase_complete", node_id := base.id,
       agent := step.agent, status := some "complete" }]
  let ss0 : SupportLoopState :=
    { plan_matter := plan_matter, propagated := propagated,
      overall_status := st.overall_status }
  let ss := step.supporting_agents.foldl
    (runSupport env step.agent step (some output)) ss0
  let r :=
    if ss.supporting_outputs.isEmpty then r
    else { r with supporting_outputs := some ss.supporting_outputs }
  let step' :=
    if ss.supporting_outputs.isEmpty then step'
    else if step'.supporting_outputs.isSome then step'
    else { step' with
           supporting_outputs := some ss.supporting_outputs }
  execNodeFinish env st step.id artifacts trace1 ss r step'

/-- One iteration of the per-node loop of `execute`
(service.py lines 207-416): resolve the plan step, look up the agent,
run it through the retry executor, and dispatch to the branch above
that the outcome selects. -/
def execNode (env : Env) (st : LoopState) (node : StepDoc) : LoopState :=
  let step := (st.plan_steps.find? (fun s => s.id = node.id)).getD node
  let base : StepResult :=
    { id := step.id, agent := step.agent,
      dependencies := step.dependencies,
      expected_artifacts := step.expected_artifacts, phase := step.phase }
  match lookupAgent env.agents step.agent with
  | Option.none => execNodeUnregistered st step base
  | some agent =>
      let trace0 := st.trace ++
        [{ event := "phase_start", node_id := base.id,
           agent := step.agent, phase := step.phase }]
      let rr := retry_async
        (agent (buildAgentInput env st.plan_matter st.propagated step))
        env.retry_policy
      if rr.success then
        execNodeSuccess env st step base trace0 (rr.result.getD [])
          rr.attempts
      else
        execNodeFailure st step base trace0
          (rr.last_exception.getD ⟨"Exception", "Agent execution failed"⟩)

/-- The walk over the topological node order (`for node in
graph.topological_order()`). -/
def execLoop (env : Env) (st : LoopState) (nodes : List StepDoc) :
    LoopState :=
  nodes.foldl (execNode env) st

/-! ## Validation (src/orchestrator/validation.py) and service entry
points -/

/-- The typed errors the service raises before and instead of running
steps (orchestrator/exceptions.py). -/
inductive OrchError where
  | validation (msg : String)
  | planNotFound (plan_id : String)
  | executionNotFound (plan_id : String)
deriving DecidableEq, Repr

/-- Modelled from the spec: the Pydantic `Matter` model phase of
`validate_matter` (`Matter.model_validate` / `model_dump` live in
orchestrator/models.py, which is not among the sources).  Per the spec
a matter "must contain `summary` (string), `parties` (list/dict),
`documents` (list) after validation; all other fields pass through
opaquely". -/
def pydanticMatterValidate (d : Dict) : Except OrchError Dict :=
  let partiesOk :=
    match dget d "parties" with
    | some (Value.list _) => true
    | some (Value.dict _) => true
    | _ => false
  let documentsOk :=
    match dget d "documents" with
    | some (Value.list _) => true
    | _ => false
  let summaryOk :=
    match dget d "summary" with
    | some (Value.str _) => true
    | _ => false
  if summaryOk && partiesOk && documentsOk then Except.ok d
  else Except.error (OrchError.validation "Invalid matter")

/-- `validate_matter(matter, require_documents=True)`: presence checks
from the source, then the spec-modelled Pydantic phase. -/
def validate_matter (matter : Option Value) : Except OrchError Dict :=
  match matter with
  | Option.none =>
      Except.error (OrchError.validation "Matter payload is required")
  | some (Value.dict d) =>
      if !containsKey d "summary" then
        Except.error
          (OrchError.validation "Matter must include a 'summary' field")
      else if !containsKey d "parties" then
        Except.error
          (OrchError.validation "Matter must include a 'parties' field")
      else if !containsKey d "documents" then
        Except.error
          (OrchError.validation "Matter must include a 'documents' field")
      else pydanticMatterValidate d
  | some _ =>
      Except.error (OrchError.validation "Matter must be a dictionary")

/-- Python `str.strip()`: drop whitespace from both ends (written over
the character list so it evaluates definitionally). -/
def pyStrip (s : String) : String :=
  ⟨((s.data.dropWhile (fun c => c.isWhitespace)).reverse.dropWhile
    (fun c => c.isWhitespace)).reverse⟩

/-- `validate_plan_id`. -/
def validate_plan_id (plan_id : Option String) : Except OrchError String :=
  match plan_id with
  | Option.none => Except.error (OrchError.validation "Plan ID is required")
  | some s =>
      let s := pyStrip s
      if s = "" then
        Except.error (OrchError.validation "Plan ID cannot be empty")
      else Except.ok s

/-- `validate_execute_params(matter, plan_id)`. -/
def validate_execute_params (matter : Option Value)
    (plan_id : Option String) :
    Except OrchError (Option Dict × Option String) :=
  if matter.isNone && plan_id.isNone then
    Except.error
      (OrchError.validation "Either 'matter' or 'plan_id' must be provided")
  else
    match plan_id, matter with
    | some p, some m =>
        match validate_plan_id (some p) with
        | Except.error e => Except.error e
        | Except.ok pid =>
            match validate_matter (some m) with
            | Except.error e => Except.error e
            | Except.ok vm => Except.ok (some vm, some pid)
    | some p, Option.none =>
        match validate_plan_id (some p) with
        | Except.error e => Except.error e
        | Except.ok pid => Except.ok (Option.none, some pid)
    | Option.none, some m =>
        match validate_matter (some m) with
        | Except.error e => Except.error e
        | Except.ok vm => Except.ok (some vm, Option.none)
    | Option.none, Option.none =>
        -- unreachable: both-none was rejected above
        Except.ok (Option.none, Option.none)

/-- `OrchestratorService.plan(matter)`: validate, build the graph,
persist the fresh plan (`remember_plan(plan_id, deepcopy(plan))` then
`save_state`). -/
def planService (env : Env) (st : OrchState) (matter : Option Value) :
    Except OrchError (Plan × OrchState) :=
  match validate_matter matter with
  | Except.error e => Except.error e
  | Except.ok vm =>
      let plan_id := env.freshPlanId
      let graph := env.buildGraph vm
      let plan : Plan :=
        { plan_id := plan_id, status := "planned", matter := vm,
          graph := graph, steps := graph,
          connectors := env.connectorCatalogue }
      Except.ok (plan, { st with plans := astore st.plans plan_id plan })

/-- The tail shared by the execute variants (service.py lines 188-435
after the plan is resolved): walk the graph, then derive the overall
status, update the plan's status and persist plan and record. -/
def executeCore (env : Env) (st : OrchState) (plan_id : String)
    (plan : Plan) : ExecutionRecord × OrchState :=
  let plan_matter := plan.matter
  let graph := plan.graph
  let plan_steps := if plan.steps.isEmpty then graph else plan.steps
  let ls0 : LoopState :=
    { plan_matter := plan_matter, plan_steps := plan_steps }
  let ls := execLoop env ls0 graph
  let overall :=
    if ls.overall_status ≠ "failed" then
      if ls.needs_attention then "attention_required" else "complete"
    else ls.overall_status
  let record : ExecutionRecord :=
    { plan_id := plan_id, status := overall, steps := ls.steps_results,
      artifacts := ls.artifacts, trace := ls.trace }
  let plan' := { plan with status := overall, steps := ls.plan_steps }
  (record,
    { st with
      plans := astore st.plans plan_id plan',
      executions := astore st.executions plan_id record })

/-- `OrchestratorService.execute(matter, plan_id)`. -/
def executeService (env : Env) (st0 : OrchState) (matter : Option Value)
    (plan_id : Option String) :
    Except OrchError (ExecutionRecord × OrchState) :=
  match validate_execute_params matter plan_id with
  | Except.error e => Except.error e
  | Except.ok (vm, vpid) =>
      match vpid with
      | some pid =>
          match alookup st0.plans pid with
          | Option.none => Except.error (OrchError.planNotFound pid)
          | some plan0 =>
              match vm with
              | some m =>
                  let p := { plan0 with matter := m }
                  Except.ok (executeCore env
                    { st0 with plans := astore st0.plans pid p } pid p)
              | Option.none => Except.ok (executeCore env st0 pid plan0)
      | Option.none =>
          match planService env st0 matter with
          | Except.error e => Except.error e
          | Except.ok (plan, st1) =>
              Except.ok (executeCore env st1 plan.plan_id plan)

/-- A progress event yielded by `execute_stream`. -/
inductive StreamEvent where
  | plan_created (plan_id : String)
  | agent_started (agent : String) (step total : Nat) (phase : Value)
  | agent_failed (agent : String) (error : String)
  | agent_completed (agent : String) (step total : Nat)
  | execution_complete (status : String) (plan_id : String)
      (artifacts_count : Nat)

/-- The mutable state of the per-node loop of `execute_stream`: the
loop state plus the yielded events and the running step counter. -/
structure StreamState where
  ls : LoopState
  events : List StreamEvent := []
  current_step : Nat := 0

/-- The unregistered-agent outcome shared by the per-node loops of
`execute_stream` and `re_execute` (no write-back into the plan's
steps). -/
def lightNodeUnregistered (st : LoopState) (base : StepResult) :
    LoopState :=
  let err := "Agent '" ++ base.agent ++ "' is not registered"
  { st with
    overall_status := "failed",
    steps_results := st.steps_results ++
      [{ base with status := some "failed", error := some err }] }

/-- The except-branch shared by the per-node loops of `execute_stream`
and `re_execute`. -/
def lightNodeFailure (st : LoopState) (base : StepResult)
    (trace0 : List TraceEvent) (e : Exc) : LoopState :=
  { st with
    overall_status := "failed",
    trace := trace0 ++
      [{ event := "phase_complete", node_id := base.id,
         agent := base.agent, status := some "failed" }],
    steps_results := st.steps_results ++
      [{ base with status := some "failed", error := some e.msg }] }

/-- The else-branch shared by the per-node loops of `execute_stream`
and `re_execute`: record the output and hoisted artifacts, then check
the exit conditions against the unmutated plan step (these two loops
run no supporting agents). -/
def lightNodeSuccess (env : Env) (st : LoopState) (step : StepDoc)
    (base : StepResult) (trace0 : List TraceEvent) (output : Dict)
    (attempts : Nat) : LoopState :=
  let r : StepResult :=
    { base with
      status := some "complete", output := some output,
      retry_attempts :=
        if 1 < attempts then some attempts else Option.none }
  let artifacts := dset st.artifacts step.agent (Value.dict output)
  let propagated := dset st.propagated step.agent (Value.dict output)
  let produced := collect_expected_artifacts output step.expected_artifacts
  let propagated :=
    if produced.isEmpty then propagated
    else dupdate propagated produced
  let plan_matter :=
    if produced.isEmpty then st.plan_matter
    else dupdate st.plan_matter produced
  let r :=
    if produced.isEmpty then r
    else { r with artifacts := some produced }
  let trace1 := trace0 ++
    [{ event := "phase_complete", node_id := base.id,
       agent := step.agent, status := some "complete" }]
  let missing := env.evalExitConditions step (dupdate plan_matter propagated)
  if missing.isEmpty then
    { st with
      plan_matter := plan_matter, propagated := propagated,
      artifacts := artifacts, trace := trace1,
      steps_results := st.steps_results ++ [r] }
  else
    { st with
      plan_matter := plan_matter, propagated := propagated,
      artifacts := artifacts, trace := trace1,
      needs_attention := true,
      steps_results := st.steps_results ++
        [{ r with
           status := some "attention_required",
           missing_signals := some missing }] }

/-- One iteration of the per-node loop of `execute_stream`
(service.py lines 499-622): the light per-node algorithm with progress
events yielded around the run. -/
def execNodeStream (env : Env) (total : Nat) (ss : StreamState)
    (node : StepDoc) : StreamState :=
  let current_step := ss.current_step + 1
  let st := ss.ls
  let step := (st.plan_steps.find? (fun s => s.id = node.id)).getD node
  let base : StepResult :=
    { id := step.id, agent := step.agent,
      dependencies := step.dependencies,
      expected_artifacts := step.expected_artifacts, phase := step.phase }
  let events := ss.events ++
    [StreamEvent.agent_started step.agent current_step total step.phase]
  match lookupAgent env.agents step.agent with
  | Option.none =>
      { ls := lightNodeUnregistered st base,
        events := events ++
          [StreamEvent.agent_failed step.agent
            ("Agent '" ++ step.agent ++ "' is not registered")],
        current_step := current_step }
  | some agent =>
      let trace0 := st.trace ++
        [{ event := "phase_start", node_id := base.id,
           agent := step.agent, phase := step.phase }]
      let rr := retry_async
        (agent (buildAgentInputLight env st.plan_matter st.propagated
          step))
        env.retry_policy
      if rr.success then
        { ls := lightNodeSuccess env st step base trace0
            (rr.result.getD []) rr.attempts,
          events := events ++
            [StreamEvent.agent_completed step.agent current_step total],
          current_step := current_step }
      else
        let e := rr.last_exception.getD
          ⟨"Exception", "Agent execution failed"⟩
        { ls := lightNodeFailure st base trace0 e,
          events := events ++
            [StreamEvent.agent_failed step.agent e.msg],
          current_step := current_step }

/-- The tail of `execute_stream` after the plan is resolved
(service.py lines 475-646): walk the graph with progress events, then
derive the overall status and persist plan and record. -/
def executeStreamCore (env : Env) (st : OrchState) (pid : String)
    (plan : Plan) : List StreamEvent × ExecutionRecord × OrchState :=
  let events0 := [StreamEvent.plan_created pid]
  let graph := plan.graph
  let plan_steps := if plan.steps.isEmpty then graph else plan.steps
  let total_steps := graph.length
  let ss0 : StreamState :=
    { ls := { plan_matter := plan.matter, plan_steps := plan_steps },
      events := events0 }
  let ss := graph.foldl (execNodeStream env total_steps) ss0
  let ls := ss.ls
  let overall :=
    if ls.overall_status ≠ "failed" then
      if ls.needs_attention then "attention_required" else "complete"
    else ls.overall_status
  let record : ExecutionRecord :=
    { plan_id := pid, status := overall, steps := ls.steps_results,
      artifacts := ls.artifacts, trace := ls.trace }
  let plan' := { plan with status := overall, steps := ls.plan_steps }
  let events := ss.events ++
    [StreamEvent.execution_complete overall pid ls.artifacts.length]
  (events, record,
    { st with
      plans := astore st.plans pid plan',
      executions := astore st.executions pid record })

/-- `OrchestratorService.execute_stream(matter, plan_id)`: the same
state machine as `execute` with progress events; the yielded event list
is returned together with the record and the persisted state. -/
def executeStreamService (env : Env) (st0 : OrchState)
    (matter : Option Value) (plan_id : Option String) :
    Except OrchError (List StreamEvent × ExecutionRecord × OrchState) :=
  match validate_execute_params matter plan_id with
  | Except.error e => Except.error e
  | Except.ok (vm, vpid) =>
      match vpid with
      | some pid =>
          match alookup st0.plans pid with
          | Option.none => Except.error (OrchError.planNotFound pid)
          | some plan0 =>
              match vm with
              | some m =>
                  let p := { plan0 with matter := m }
                  Except.ok (executeStreamCore env
                    { st0 with plans := astore st0.plans pid p } pid p)
              | Option.none =>
                  Except.ok (executeStreamCore env st0 pid plan0)
      | Option.none =>
          match planService env st0 matter with
          | Except.error e => Except.error e
          | Except.ok (plan, st1) =>
              Except.ok (executeStreamCore env st1 plan.plan_id plan)

/-! ## Resumable re-execution (`re_execute`, service.py lines 702-916) -/

/-- One preserved step of the restore loop of `re_execute`
(service.py lines 769-778): replay a step recorded `complete` into
`steps_results` and re-seed `artifacts`/`propagated` from its non-empty
output and `propagated`/`plan_matter` from its non-empty artifacts. -/
def restoreStep (ls : LoopState) (step : StepResult) : LoopState :=
  let ls := { ls with steps_results := ls.steps_results ++ [step] }
  let ls :=
    match step.output with
    | some o =>
        if o.isEmpty then ls
        else
          { ls with
            artifacts := dset ls.artifacts step.agent (Value.dict o),
            propagated := dset ls.propagated step.agent (Value.dict o) }
    | Option.none => ls
  match step.artifacts with
  | some a =>
      if a.isEmpty then ls
      else
        { ls with
          propagated := dupdate ls.propagated a,
          plan_matter := dupdate ls.plan_matter a }
  | Option.none => ls

/-- The restore loop itself (`for step in previous_execution["steps"]`
with the break at the resume point). -/
def restorePrefix (start_step_id : String) :
    List StepResult → LoopState → LoopState × Bool
  | [], ls => (ls, false)
  | step :: rest, ls =>
      if step.id = start_step_id then (ls, true)
      else if step.status = some "complete" then
        restorePrefix start_step_id rest (restoreStep ls step)
      else restorePrefix start_step_id rest ls

/-- The per-node loop state of `re_execute`: the loop state plus the
`past_start_point` flag. -/
structure ReExecState where
  ls : LoopState
  past_start_point : Bool

/-- One iteration of the per-node loop of `re_execute`
(service.py lines 788-896): skip nodes before the resume point and
nodes already replayed, then run the same light per-node algorithm as
`execute_stream` (no supporting agents, no plan-step write-back). -/
def reExecNode (env : Env) (start_step_id : Option String)
    (rs : ReExecState) (node : StepDoc) : ReExecState :=
  let st := rs.ls
  let step := (st.plan_steps.find? (fun s => s.id = node.id)).getD node
  -- `past_start_point` after this node; processing happens exactly when
  -- it is set (either it already was, or this node is the start point)
  let past := rs.past_start_point ||
    decide (some step.id = start_step_id)
  if !past then { rs with past_start_point := past }
  else if st.steps_results.any (fun r => r.id = step.id) then
    { rs with past_start_point := past }
  else
    let base : StepResult :=
      { id := step.id, agent := step.agent,
        dependencies := step.dependencies,
        expected_artifacts := step.expected_artifacts,
        phase := step.phase }
    match lookupAgent env.agents step.agent with
    | Option.none =>
        { past_start_point := past, ls := lightNodeUnregistered st base }
    | some agent =>
        let trace0 := st.trace ++
          [{ event := "phase_start", node_id := base.id,
             agent := step.agent, phase := step.phase }]
        let rr := retry_async
          (agent (buildAgentInputLight env st.plan_matter st.propagated
            step))
          env.retry_policy
        if rr.success then
          { past_start_point := past,
            ls := lightNodeSuccess env st step base trace0
              (rr.result.getD []) rr.attempts }
        else
          { past_start_point := past,
            ls := lightNodeFailure st base trace0
              (rr.last_exception.getD
                ⟨"Exception", "Agent execution failed"⟩) }

/-- The resume point of `re_execute`: an explicit truthy `from_step`,
else (with `resume_from_failure` and a previous execution) the id of
the first step whose last recorded status was `failed`. -/
def resumeStartStepId (from_step : Option String)
    (resume_from_failure : Bool) (previous : Option ExecutionRecord) :
    Option String :=
  let fallback :=
    if resume_from_failure then
      previous.bind (fun prev =>
        (prev.steps.find? (fun s => s.status = some "failed")).map
          (fun s => s.id))
    else Option.none
  match from_step with
  | some s => if s ≠ "" then some s else fallback
  | Option.none => fallback

/-- The tail of `re_execute` after plan and previous execution are
recalled (service.py lines 753-916): restore the preserved prefix, walk
the graph from the resume point, then derive the overall status and
persist plan and record (flagged `re_execution`). -/
def reExecuteCore (env : Env) (st : OrchState) (plan_id : String)
    (plan : Plan) (previous : Option ExecutionRecord)
    (start_step_id : Option String) : ExecutionRecord × OrchState :=
  let ls0 : LoopState :=
    { plan_matter := plan.matter, plan_steps := plan.steps }
  let past0 := start_step_id.isNone
  let restored :=
    match previous, start_step_id with
    | some prev, some start => restorePrefix start prev.steps ls0
    | _, _ => (ls0, false)
  let ls1 := restored.1
  let past1 := past0 || restored.2
  let graph := plan.graph
  let rs := graph.foldl (reExecNode env start_step_id)
    { ls := ls1, past_start_point := past1 }
  let ls := rs.ls
  let overall :=
    if ls.overall_status ≠ "failed" then
      if ls.needs_attention then "attention_required" else "complete"
    else ls.overall_status
  let record : ExecutionRecord :=
    { plan_id := plan_id, status := overall,
      steps := ls.steps_results, artifacts := ls.artifacts,
      trace := ls.trace, re_execution := true }
  let plan' := { plan with status := overall }
  (record,
    { st with
      plans := astore st.plans plan_id plan',
      executions := astore st.executions plan_id record })

/-- `OrchestratorService.re_execute(plan_id, from_step,
resume_from_failure)`. -/
def reExecuteService (env : Env) (st : OrchState) (plan_id : String)
    (from_step : Option String) (resume_from_failure : Bool) :
    Except OrchError (ExecutionRecord × OrchState) :=
  match alookup st.plans plan_id with
  | Option.none => Except.error (OrchError.planNotFound plan_id)
  | some plan =>
      let previous := alookup st.executions plan_id
      let start_step_id :=
        resumeStartStepId from_step resume_from_failure previous
      Except.ok (reExecuteCore env st plan_id plan previous start_step_id)

/-! ## Status aggregation (claim C1) -/

theorem alookup_astore_self {β : Type} (xs : List (String × β))
    (k : String) (v : β) : alookup (astore xs k v) k = some v := by
  induction xs with
  | nil => simp [astore, alookup]
  | cons hd tl ih =>
    by_cases h : hd.1 = k
    · simp [astore, alookup, h]
    · simp [astore, alookup, h, ih]

/-- The spec's after-the-walk rule, as a function of the recorded step
results: `failed` if any step failed, else `attention_required` if any
step was demoted, else `complete`. -/
def aggregateStatus (steps : List StepResult) : String :=
  if steps.any (fun r => r.status = some "failed") then "failed"
  else if steps.any (fun r => r.status = some "attention_required") then
    "attention_required"
  else "complete"

theorem runSupport_invariant (env : Env) (an : String) (step : StepDoc)
    (po : Option Dict) (ss : SupportLoopState) (sp : SupportSpec)
    (h : ss.support_failed = true → ss.overall_status = "failed") :
    ((runSupport env an step po ss sp).support_failed = true →
      (runSupport env an step po ss sp).overall_status = "failed") ∧
    ((runSupport env an step po ss sp).support_failed = false →
      ss.support_failed = false ∧
      (runSupport env an step po ss sp).overall_status =
        ss.overall_status) := by
  unfold runSupport
  cases lookupAgent env.agents sp.agent with
  | none => simp
  | some sa =>
    dsimp only
    split
    · split
      · exact ⟨h, fun hf => ⟨hf, rfl⟩⟩
      · exact ⟨h, fun hf => ⟨hf, rfl⟩⟩
    · simp

theorem supportFold_invariant (env : Env) (an : String) (step : StepDoc)
    (po : Option Dict) (sps : List SupportSpec) :
    ∀ ss : SupportLoopState,
      (ss.support_failed = true → ss.overall_status = "failed") →
      (((sps.foldl (runSupport env an step po) ss).support_failed = true →
        (sps.foldl (runSupport env an step po) ss).overall_status =
          "failed") ∧
       ((sps.foldl (runSupport env an step po) ss).support_failed = false →
        ss.support_failed = false ∧
        (sps.foldl (runSupport env an step po) ss).overall_status =
          ss.overall_status)) := by
  induction sps with
  | nil => intro ss h; exact ⟨h, fun hf => ⟨hf, rfl⟩⟩
  | cons sp rest ih =>
    intro ss h
    simp only [List.foldl_cons]
    obtain ⟨h1, h2⟩ := runSupport_invariant env an step po ss sp h
    obtain ⟨g1, g2⟩ := ih (runSupport env an step po ss sp) h1
    refine ⟨g1, fun hf => ?_⟩
    obtain ⟨hf1, hov⟩ := g2 hf
    obtain ⟨hf2, hov2⟩ := h2 hf1
    exact ⟨hf2, by rw [hov, hov2]⟩

/-- The step result an iteration appended: the last entry of
`steps_results` (total, with a dummy default never reached). -/
def lastR (st' : LoopState) : StepResult :=
  st'.steps_results.getLastD { id := "", agent := "" }

theorem execNodeUnregistered_char (st : LoopState) (step : StepDoc)
    (base : StepResult) :
    (execNodeUnregistered st step base).steps_results =
      st.steps_results ++ [lastR (execNodeUnregistered st step base)] ∧
    (execNodeUnregistered st step base).overall_status = "failed" ∧
    (execNodeUnregistered st step base).needs_attention =
      st.needs_attention ∧
    (lastR (execNodeUnregistered st step base)).status = some "failed" := by
  unfold execNodeUnregistered lastR
  simp [List.getLastD_concat]

theorem execNodeFailure_char (st : LoopState) (step : StepDoc)
    (base : StepResult) (trace0 : List TraceEvent) (e : Exc) :
    (execNodeFailure st step base trace0 e).steps_results =
      st.steps_results ++
        [lastR (execNodeFailure st step base trace0 e)] ∧
    (execNodeFailure st step base trace0 e).overall_status = "failed" ∧
    (execNodeFailure st step base trace0 e).needs_attention =
      st.needs_attention ∧
    (lastR (execNodeFailure st step base trace0 e)).status =
      some "failed" := by
  unfold execNodeFailure lastR
  simp [List.getLastD_concat]

theorem execNodeFinish_char (env : Env) (st : LoopState)
    (stepId : String) (artifacts : Dict) (trace1 : List TraceEvent)
    (ss : SupportLoopState) (r : StepResult) (step' : StepDoc)
    (hr : r.status = some "complete")
    (hss1 : ss.support_failed = true → ss.overall_status = "failed")
    (hss2 : ss.support_failed = false →
      ss.overall_status = st.overall_status) :
    (execNodeFinish env st stepId artifacts trace1 ss r
        step').steps_results =
      st.steps_results ++
        [lastR (execNodeFinish env st stepId artifacts trace1 ss r
          step')] ∧
    (execNodeFinish env st stepId artifacts trace1 ss r
        step').overall_status =
      (if (lastR (execNodeFinish env st stepId artifacts trace1 ss r
          step')).status = some "failed" then "failed"
        else st.overall_status) ∧
    (execNodeFinish env st stepId artifacts trace1 ss r
        step').needs_attention =
      (st.needs_attention ||
        decide ((lastR (execNodeFinish env st stepId artifacts trace1 ss
          r step')).status = some "attention_required")) ∧
    ((lastR (execNodeFinish env st stepId artifacts trace1 ss r
        step')).status = some "failed" ∨
      (lastR (execNodeFinish env st stepId artifacts trace1 ss r
        step')).status = some "complete" ∨
      (lastR (execNodeFinish env st stepId artifacts trace1 ss r
        step')).status = some "attention_required") := by
  unfold execNodeFinish
  dsimp only
  split
  · rename_i hsf
    refine ⟨by simp [lastR, List.getLastD_concat], ?_,
      by simp [lastR, List.getLastD_concat],
      by simp [lastR, List.getLastD_concat]⟩
    simp only [lastR, List.getLastD_concat]
    simp [hss1 hsf]
  · rename_i hsf
    have h2 := hss2 (eq_false_of_ne_true hsf)
    split
    · refine ⟨by simp [lastR, List.getLastD_concat], ?_,
        by simp [lastR, List.getLastD_concat, hr],
        by simp [lastR, List.getLastD_concat, hr]⟩
      simp only [lastR, List.getLastD_concat]
      simp [hr, h2]
    · refine ⟨by simp [lastR, List.getLastD_concat], ?_,
        by simp [lastR, List.getLastD_concat],
        by simp [lastR, List.getLastD_concat]⟩
      simp only [lastR, List.getLastD_concat]
      simp [h2]

/-- The success branch of `execute`'s loop appends one result whose
status decides the running overall status and the attention flag. -/
theorem execNodeSuccess_char (env : Env) (st : LoopState) (step : StepDoc)
    (base : StepResult) (trace0 : List TraceEvent) (output : Dict)
    (attempts : Nat) :
    (execNodeSuccess env st step base trace0 output attempts).steps_results
        = st.steps_results ++
          [lastR (execNodeSuccess env st step base trace0 output
            attempts)] ∧
      (execNodeSuccess env st step base trace0 output
        attempts).overall_status =
        (if (lastR (execNodeSuccess env st step base trace0 output
            attempts)).status = some "failed" then "failed"
          else st.overall_status) ∧
      (execNodeSuccess env st step base trace0 output
        attempts).needs_attention =
        (st.needs_attention ||
          decide ((lastR (execNodeSuccess env st step base trace0 output
            attempts)).status = some "attention_required")) ∧
      ((lastR (execNodeSuccess env st step base trace0 output
          attempts)).status = some "failed" ∨
        (lastR (execNodeSuccess env st step base trace0 output
          attempts)).status = some "complete" ∨
        (lastR (execNodeSuccess env st step base trace0 output
          attempts)).status = some "attention_required") := by
  unfold execNodeSuccess
  dsimp only
  apply execNodeFinish_char
  · split
    · split <;> rfl
    · split <;> rfl
  · intro h
    exact (supportFold_invariant env _ _ _ _ _ (by simp)).1 h
  · intro h
    exact ((supportFold_invariant env _ _ _ _ _ (by simp)).2 h).2

/-- Every iteration of the per-node loop of `execute` appends exactly
one step result; the running overall status becomes `failed` exactly
when that result failed, and `needs_attention` is set exactly when it
was demoted to `attention_required`. -/
theorem execNode_char (env : Env) (st : LoopState) (node : StepDoc) :
    (execNode env st node).steps_results =
      st.steps_results ++ [lastR (execNode env st node)] ∧
    (execNode env st node).overall_status =
      (if (lastR (execNode env st node)).status = some "failed" then
        "failed" else st.overall_status) ∧
    (execNode env st node).needs_attention =
      (st.needs_attention ||
        decide ((lastR (execNode env st node)).status =
          some "attention_required")) ∧
    ((lastR (execNode env st node)).status = some "failed" ∨
      (lastR (execNode env st node)).status = some "complete" ∨
      (lastR (execNode env st node)).status =
        some "attention_required") := by
  unfold execNode
  dsimp only
  split
  · obtain ⟨h1, h2, h3, h4⟩ := execNodeUnregistered_char st _ _
    exact ⟨h1, by rw [h2, if_pos h4], by simp [h3, h4], Or.inl h4⟩
  · split
    · obtain ⟨h1, h2, h3, h4⟩ := execNodeSuccess_char env st _ _ _ _ _
      exact ⟨h1, h2, h3, h4⟩
    · obtain ⟨h1, h2, h3, h4⟩ := execNodeFailure_char st _ _ _ _
      exact ⟨h1, by rw [h2, if_pos h4], by simp [h3, h4], Or.inl h4⟩

theorem lightNodeUnregistered_char (st : LoopState) (base : StepResult) :
    (lightNodeUnregistered st base).steps_results =
      st.steps_results ++ [lastR (lightNodeUnregistered st base)] ∧
    (lightNodeUnregistered st base).overall_status = "failed" ∧
    (lightNodeUnregistered st base).needs_attention = st.needs_attention ∧
    (lastR (lightNodeUnregistered st base)).status = some "failed" := by
  unfold lightNodeUnregistered lastR
  simp [List.getLastD_concat]

theorem lightNodeFailure_char (st : LoopState) (base : StepResult)
    (trace0 : List TraceEvent) (e : Exc) :
    (lightNodeFailure st base trace0 e).steps_results =
      st.steps_results ++ [lastR (lightNodeFailure st base trace0 e)] ∧
    (lightNodeFailure st base trace0 e).overall_status = "failed" ∧
    (lightNodeFailure st base trace0 e).needs_attention =
      st.needs_attention ∧
    (lastR (lightNodeFailure st base trace0 e)).status =
      some "failed" := by
  unfold lightNodeFailure lastR
  simp [List.getLastD_concat]

theorem lightNodeSuccess_char (env : Env) (st : LoopState)
    (step : StepDoc) (base : StepResult) (trace0 : List TraceEvent)
    (output : Dict) (attempts : Nat) :
    (lightNodeSuccess env st step base trace0 output
        attempts).steps_results =
      st.steps_results ++
        [lastR (lightNodeSuccess env st step base trace0 output
          attempts)] ∧
    (lightNodeSuccess env st step base trace0 output
        attempts).overall_status =
      (if (lastR (lightNodeSuccess env st step base trace0 output
          attempts)).status = some "failed" then "failed"
        else st.overall_status) ∧
    (lightNodeSuccess env st step base trace0 output
        attempts).needs_attention =
      (st.needs_attention ||
        decide ((lastR (lightNodeSuccess env st step base trace0 output
          attempts)).status = some "attention_required")) ∧
    ((lastR (lightNodeSuccess env st step base trace0 output
        attempts)).status = some "failed" ∨
      (lastR (lightNodeSuccess env st step base trace0 output
        attempts)).status = some "complete" ∨
      (lastR (lightNodeSuccess env st step base trace0 output
        attempts)).status = some "attention_required") := by
  unfold lightNodeSuccess
  dsimp only
  split <;> split <;> simp [lastR, List.getLastD_concat]

/-- Every iteration of the per-node loop of `execute_stream` appends
exactly one step result, with the same status bookkeeping as
`execute`'s loop. -/
theorem execNodeStream_char (env : Env) (total : Nat) (ss : StreamState)
    (node : StepDoc) :
    (execNodeStream env total ss node).ls.steps_results =
      ss.ls.steps_results ++
        [lastR (execNodeStream env total ss node).ls] ∧
    (execNodeStream env total ss node).ls.overall_status =
      (if (lastR (execNodeStream env total ss node).ls).status =
          some "failed" then "failed" else ss.ls.overall_status) ∧
    (execNodeStream env total ss node).ls.needs_attention =
      (ss.ls.needs_attention ||
        decide ((lastR (execNodeStream env total ss node).ls).status =
          some "attention_required")) ∧
    ((lastR (execNodeStream env total ss node).ls).status =
        some "failed" ∨
      (lastR (execNodeStream env total ss node).ls).status =
        some "complete" ∨
      (lastR (execNodeStream env total ss node).ls).status =
        some "attention_required") := by
  unfold execNodeStream
  dsimp only
  split
  · obtain ⟨h1, h2, h3, h4⟩ := lightNodeUnregistered_char ss.ls _
    exact ⟨h1, by rw [h2, if_pos h4], by simp [h3, h4], Or.inl h4⟩
  · split
    · exact lightNodeSuccess_char env ss.ls _ _ _ _ _
    · obtain ⟨h1, h2, h3, h4⟩ := lightNodeFailure_char ss.ls _ _ _
      exact ⟨h1, by rw [h2, if_pos h4], by simp [h3, h4], Or.inl h4⟩

/-- Every iteration of the per-node loop of `re_execute` either skips
the node (leaving the loop state unchanged) or appends exactly one step
result with the same status bookkeeping as the other loops. -/
theorem reExecNode_char (env : Env) (start : Option String)
    (rs : ReExecState) (node : StepDoc) :
    (reExecNode env start rs node).ls = rs.ls ∨
    ((reExecNode env start rs node).ls.steps_results =
        rs.ls.steps_results ++
          [lastR (reExecNode env start rs node).ls] ∧
      (reExecNode env start rs node).ls.overall_status =
        (if (lastR (reExecNode env start rs node).ls).status =
            some "failed" then "failed" else rs.ls.overall_status) ∧
      (reExecNode env start rs node).ls.needs_attention =
        (rs.ls.needs_attention ||
          decide ((lastR (reExecNode env start rs node).ls).status =
            some "attention_required")) ∧
      ((lastR (reExecNode env start rs node).ls).status =
          some "failed" ∨
        (lastR (reExecNode env start rs node).ls).status =
          some "complete" ∨
        (lastR (reExecNode env start rs node).ls).status =
          some "attention_required")) := by
  unfold reExecNode
  dsimp only
  split
  · exact Or.inl rfl
  · split
    · exact Or.inl rfl
    · refine Or.inr ?_
      split
      · obtain ⟨h1, h2, h3, h4⟩ := lightNodeUnregistered_char rs.ls _
        exact ⟨h1, by rw [h2, if_pos h4], by simp [h3, h4], Or.inl h4⟩
      · split
        · exact lightNodeSuccess_char env rs.ls _ _ _ _ _
        · obtain ⟨h1, h2, h3, h4⟩ := lightNodeFailure_char rs.ls _ _ _
          exact ⟨h1, by rw [h2, if_pos h4], by simp [h3, h4],
            Or.inl h4⟩

/-- The running bookkeeping every execute-variant loop maintains: the
overall status is `failed` exactly when a recorded step failed (and is
otherwise still `complete`), and `needs_attention` is set exactly when
a recorded step was demoted. -/
def statusInvariant (st : LoopState) : Prop :=
  ((st.overall_status = "failed") ↔
    st.steps_results.any (fun r => r.status = some "failed") = true) ∧
  (st.overall_status ≠ "failed" → st.overall_status = "complete") ∧
  (st.needs_attention =
    st.steps_results.any
      (fun r => r.status = some "attention_required"))

theorem statusInvariant_step (st st' : LoopState) (r : StepResult)
    (hsteps : st'.steps_results = st.steps_results ++ [r])
    (hov : st'.overall_status =
      (if r.status = some "failed" then "failed" else st.overall_status))
    (hna : st'.needs_attention =
      (st.needs_attention ||
        decide (r.status = some "attention_required")))
    (hinv : statusInvariant st) : statusInvariant st' := by
  obtain ⟨i1, i2, i3⟩ := hinv
  refine ⟨?_, ?_, ?_⟩
  · rw [hsteps, hov, List.any_append]
    by_cases hf : r.status = some "failed"
    · simp [hf]
    · simp [hf, i1]
  · rw [hov]
    by_cases hf : r.status = some "failed"
    · simp [hf]
    · simpa [hf] using i2
  · rw [hsteps, hna, i3, List.any_append]
    simp

theorem execLoop_invariant (env : Env) (nodes : List StepDoc) :
    ∀ st : LoopState, statusInvariant st →
      statusInvariant (execLoop env st nodes) := by
  induction nodes with
  | nil => exact fun st h => h
  | cons n rest ih =>
    intro st h
    have hc := execNode_char env st n
    exact ih (execNode env st n)
      (statusInvariant_step st _ _ hc.1 hc.2.1 hc.2.2.1 h)

theorem streamFold_invariant (env : Env) (total : Nat)
    (nodes : List StepDoc) :
    ∀ ss : StreamState, statusInvariant ss.ls →
      statusInvariant
        ((nodes.foldl (execNodeStream env total) ss).ls) := by
  induction nodes with
  | nil => exact fun ss h => h
  | cons n rest ih =>
    intro ss h
    have hc := execNodeStream_char env total ss n
    exact ih (execNodeStream env total ss n)
      (statusInvariant_step ss.ls _ _ hc.1 hc.2.1 hc.2.2.1 h)

theorem reExecFold_invariant (env : Env) (start : Option String)
    (nodes : List StepDoc) :
    ∀ rs : ReExecState, statusInvariant rs.ls →
      statusInvariant
        ((nodes.foldl (reExecNode env start) rs).ls) := by
  induction nodes with
  | nil => exact fun rs h => h
  | cons n rest ih =>
    intro rs h
    rcases reExecNode_char env start rs n with heq | hc
    · exact ih (reExecNode env start rs n) (heq ▸ h)
    · exact ih (reExecNode env start rs n)
        (statusInvariant_step rs.ls _ _ hc.1 hc.2.1 hc.2.2.1 h)

theorem restoreStep_fields (ls : LoopState) (step : StepResult) :
    (restoreStep ls step).steps_results =
        ls.steps_results ++ [step] ∧
      (restoreStep ls step).overall_status = ls.overall_status ∧
      (restoreStep ls step).needs_attention = ls.needs_attention ∧
      (restoreStep ls step).plan_steps = ls.plan_steps := by
  unfold restoreStep
  dsimp only
  repeat' split
  all_goals exact ⟨rfl, rfl, rfl, rfl⟩

theorem restorePrefix_invariant (start : String)
    (prev : List StepResult) :
    ∀ ls : LoopState, statusInvariant ls →
      statusInvariant (restorePrefix start prev ls).1 := by
  induction prev with
  | nil => exact fun ls h => h
  | cons step rest ih =>
    intro ls h
    unfold restorePrefix
    split
    · exact h
    · split
      · rename_i hc
        apply ih
        obtain ⟨f1, f2, f3, _⟩ := restoreStep_fields ls step
        obtain ⟨i1, i2, i3⟩ := h
        refine ⟨?_, ?_, ?_⟩
        · rw [f1, f2, List.any_append]
          simp [hc, i1]
        · rw [f2]; exact i2
        · rw [f1, f3, i3, List.any_append]
          simp [hc]
      · exact ih ls h

theorem statusInvariant_init (pm : Dict) (ps : List StepDoc) :
    statusInvariant { plan_matter := pm, plan_steps := ps } :=
  ⟨⟨fun h => absurd (show "complete" = "failed" from h) (by decide),
    fun h => Bool.noConfusion (show false = true from h)⟩,
   fun _ => rfl, rfl⟩

/-- The after-the-walk status computation (service.py lines 426-428)
agrees with `aggregateStatus` whenever the loop invariant holds. -/
theorem final_status_eq (ls : LoopState) (h : statusInvariant ls) :
    (if ls.overall_status ≠ "failed" then
      (if ls.needs_attention then "attention_required" else "complete")
     else ls.overall_status) = aggregateStatus ls.steps_results := by
  obtain ⟨i1, i2, i3⟩ := h
  unfold aggregateStatus
  by_cases hf : ls.overall_status = "failed"
  · simp [hf, i1.mp hf]
  · have hany : ls.steps_results.any
        (fun r => r.status = some "failed") = false := by
      cases h' : ls.steps_results.any (fun r => r.status = some "failed")
      · rfl
      · exact absurd (i1.mpr h') hf
    rw [← i3]
    simp [hf, hany]

theorem executeCore_spec (env : Env) (st : OrchState) (pid : String)
    (plan : Plan) :
    (executeCore env st pid plan).1.status =
      aggregateStatus (executeCore env st pid plan).1.steps ∧
    (executeCore env st pid plan).1.plan_id = pid ∧
    alookup (executeCore env st pid plan).2.executions pid =
      some (executeCore env st pid plan).1 ∧
    (∃ plan', alookup (executeCore env st pid plan).2.plans pid =
        some plan' ∧
      plan'.status = (executeCore env st pid plan).1.status) := by
  unfold executeCore execLoop
  dsimp only
  have hinv := execLoop_invariant env plan.graph
    { plan_matter := plan.matter,
      plan_steps := if plan.steps.isEmpty then plan.graph else plan.steps }
    (statusInvariant_init _ _)
  refine ⟨?_, rfl, alookup_astore_self _ _ _,
    ⟨_, alookup_astore_self _ _ _, rfl⟩⟩
  exact final_status_eq _ hinv

theorem executeStreamCore_spec (env : Env) (st : OrchState)
    (pid : String) (plan : Plan) :
    (executeStreamCore env st pid plan).2.1.status =
      aggregateStatus (executeStreamCore env st pid plan).2.1.steps ∧
    (executeStreamCore env st pid plan).2.1.plan_id = pid ∧
    alookup (executeStreamCore env st pid plan).2.2.executions pid =
      some (executeStreamCore env st pid plan).2.1 ∧
    (∃ plan', alookup (executeStreamCore env st pid plan).2.2.plans pid =
        some plan' ∧
      plan'.status = (executeStreamCore env st pid plan).2.1.status) := by
  unfold executeStreamCore
  dsimp only
  have hinv := streamFold_invariant env plan.graph.length plan.graph
    { ls :=
        { plan_matter := plan.matter,
          plan_steps :=
            if plan.steps.isEmpty then plan.graph else plan.steps },
      events := [StreamEvent.plan_created pid] }
    (statusInvariant_init _ _)
  refine ⟨?_, rfl, alookup_astore_self _ _ _,
    ⟨_, alookup_astore_self _ _ _, rfl⟩⟩
  exact final_status_eq _ hinv

theorem reExecuteCore_spec (env : Env) (st : OrchState) (pid : String)
    (plan : Plan) (previous : Option ExecutionRecord)
    (start_step_id : Option String) :
    (reExecuteCore env st pid plan previous start_step_id).1.status =
      aggregateStatus
        (reExecuteCore env st pid plan previous start_step_id).1.steps ∧
    (reExecuteCore env st pid plan previous
      start_step_id).1.plan_id = pid ∧
    (reExecuteCore env st pid plan previous
      start_step_id).1.re_execution = true ∧
    alookup (reExecuteCore env st pid plan previous
        start_step_id).2.executions pid =
      some (reExecuteCore env st pid plan previous start_step_id).1 ∧
    (∃ plan', alookup (reExecuteCore env st pid plan previous
          start_step_id).2.plans pid = some plan' ∧
      plan'.status =
        (reExecuteCore env st pid plan previous
          start_step_id).1.status) := by
  unfold reExecuteCore
  dsimp only
  have hres : statusInvariant
      (match previous, start_step_id with
        | some prev, some start =>
            restorePrefix start prev.steps
              { plan_matter := plan.matter, plan_steps := plan.steps }
        | _, _ =>
            ({ plan_matter := plan.matter, plan_steps := plan.steps },
              false)).1 := by
    rcases previous with _ | prev <;> rcases start_step_id with _ | start
    · exact statusInvariant_init _ _
    · exact statusInvariant_init _ _
    · exact statusInvariant_init _ _
    · exact restorePrefix_invariant start prev.steps _
        (statusInvariant_init _ _)
  refine ⟨?_, rfl, rfl, alookup_astore_self _ _ _,
    ⟨_, alookup_astore_self _ _ _, rfl⟩⟩
  exact final_status_eq _
    (reExecFold_invariant env start_step_id plan.graph _ hres)

theorem executeCore_ok_spec (env : Env) (st : OrchState) (pid : String)
    (plan : Plan) (record : ExecutionRecord) (st' : OrchState)
    (h : executeCore env st pid plan = (record, st')) :
    record.status = aggregateStatus record.steps ∧
    alookup st'.executions record.plan_id = some record ∧
    (∃ plan', alookup st'.plans record.plan_id = some plan' ∧
      plan'.status = record.status) := by
  obtain ⟨c1, c2, c3, c4⟩ := executeCore_spec env st pid plan
  rw [h] at c1 c2 c3 c4
  dsimp only at c1 c2 c3 c4
  rw [← c2] at c3 c4
  exact ⟨c1, c3, c4⟩

theorem executeStreamCore_ok_spec (env : Env) (st : OrchState)
    (pid : String) (plan : Plan) (evs : List StreamEvent)
    (record : ExecutionRecord) (st' : OrchState)
    (h : executeStreamCore env st pid plan = (evs, record, st')) :
    record.status = aggregateStatus record.steps ∧
    alookup st'.executions record.plan_id = some record ∧
    (∃ plan', alookup st'.plans record.plan_id = some plan' ∧
      plan'.status = record.status) := by
  obtain ⟨c1, c2, c3, c4⟩ := executeStreamCore_spec env st pid plan
  rw [h] at c1 c2 c3 c4
  dsimp only at c1 c2 c3 c4
  rw [← c2] at c3 c4
  exact ⟨c1, c3, c4⟩

theorem reExecuteCore_ok_spec (env : Env) (st : OrchState)
    (pid : String) (plan : Plan) (previous : Option ExecutionRecord)
    (start_step_id : Option String) (record : ExecutionRecord)
    (st' : OrchState)
    (h : reExecuteCore env st pid plan previous start_step_id =
      (record, st')) :
    record.status = aggregateStatus record.steps ∧
    record.re_execution = true ∧
    alookup st'.executions record.plan_id = some record ∧
    (∃ plan', alookup st'.plans record.plan_id = some plan' ∧
      plan'.status = record.status) := by
  obtain ⟨c1, c2, c5, c3, c4⟩ :=
    reExecuteCore_spec env st pid plan previous start_step_id
  rw [h] at c1 c2 c5 c3 c4
  dsimp only at c1 c2 c5 c3 c4
  rw [← c2] at c3 c4
  exact ⟨c1, c5, c3, c4⟩

/-- C1: for every run of `execute`, `execute_stream` or `re_execute`
that returns an execution record, the record's status (returned and
persisted alike) is `failed` if at least one step result failed, else
`attention_required` if any completed step was demoted by a non-empty
missing-signal list, else `complete`; and the persisted plan's own
`status` field equals that execution status. -/
theorem execution_status_spec :
    (∀ (env : Env) (st0 : OrchState) (matter : Option Value)
        (plan_id : Option String) (record : ExecutionRecord)
        (st' : OrchState),
      executeService env st0 matter plan_id = Except.ok (record, st') →
      record.status = aggregateStatus record.steps ∧
      alookup st'.executions record.plan_id = some record ∧
      (∃ plan', alookup st'.plans record.plan_id = some plan' ∧
        plan'.status = record.status)) ∧
    (∀ (env : Env) (st0 : OrchState) (matter : Option Value)
        (plan_id : Option String) (evs : List StreamEvent)
        (record : ExecutionRecord) (st' : OrchState),
      executeStreamService env st0 matter plan_id =
        Except.ok (evs, record, st') →
      record.status = aggregateStatus record.steps ∧
      alookup st'.executions record.plan_id = some record ∧
      (∃ plan', alookup st'.plans record.plan_id = some plan' ∧
        plan'.status = record.status)) ∧
    (∀ (env : Env) (st0 : OrchState) (pid : String)
        (from_step : Option String) (resume : Bool)
        (record : ExecutionRecord) (st' : OrchState),
      reExecuteService env st0 pid from_step resume =
        Except.ok (record, st') →
      record.status = aggregateStatus record.steps ∧
      alookup st'.executions record.plan_id = some record ∧
      (∃ plan', alookup st'.plans record.plan_id = some plan' ∧
        plan'.status = record.status)) := by
  refine ⟨?_, ?_, ?_⟩
  · intro env st0 matter plan_id record st' h
    unfold executeService at h
    repeat' split at h
    all_goals first
      | exact executeCore_ok_spec env _ _ _ record st' (Except.ok.inj h)
      | cases h
  · intro env st0 matter plan_id evs record st' h
    unfold executeStreamService at h
    repeat' split at h
    all_goals first
      | exact (executeStreamCore_ok_spec env _ _ _ evs record st'
          (Except.ok.inj h))
      | cases h
  · intro env st0 pid from_step resume record st' h
    unfold reExecuteService at h
    repeat' split at h
    all_goals first
      | exact And.intro
          (reExecuteCore_ok_spec env _ _ _ _ _ record st'
            (Except.ok.inj h)).1
          (And.intro
            (reExecuteCore_ok_spec env _ _ _ _ _ record st'
              (Except.ok.inj h)).2.2.1
            (reExecuteCore_ok_spec env _ _ _ _ _ record st'
              (Except.ok.inj h)).2.2.2)
      | cases h

/-- A concrete agent that always succeeds, for evaluating the model. -/
def wAgent : AgentBehavior := fun _ _ => Except.ok [("facts", Value.int 1)]

/-- A concrete environment registering that one agent. -/
def wEnv : Env := { agents := [("a1", wAgent)] }

/-- A concrete single-node graph step. -/
def wNode : StepDoc := { id := "s1", agent := "a1" }

/-- A concrete persisted plan over that graph. -/
def wPlan : Plan :=
  { plan_id := "p1", status := "planned",
    matter := [("summary", Value.str "S")],
    graph := [wNode], steps := [wNode] }

/-- A concrete persisted state holding that plan. -/
def wState : OrchState := { plans := [("p1", wPlan)] }

/-- Witness for `execution_status_spec`: all three services evaluated on
a concrete one-step plan. -/
theorem execution_status_spec_witness :
    (match executeService wEnv wState Option.none (some "p1") with
      | Except.ok (record, st') =>
          record.status = aggregateStatus record.steps ∧
          alookup st'.executions record.plan_id = some record
      | Except.error _ => False) ∧
    (match executeStreamService wEnv wState Option.none (some "p1") with
      | Except.ok (_, record, _) =>
          record.status = aggregateStatus record.steps
      | Except.error _ => False) ∧
    (match reExecuteService wEnv wState "p1" Option.none true with
      | Except.ok (record, _) =>
          record.status = aggregateStatus record.steps
      | Except.error _ => False) := by
  refine ⟨?_, ?_, ?_⟩
  · cases heq : executeService wEnv wState Option.none (some "p1") with
    | error e =>
        have hok : (executeService wEnv wState Option.none
            (some "p1")).isOk = true := rfl
        rw [heq] at hok
        exact Bool.noConfusion hok
    | ok p =>
        obtain ⟨record, st'⟩ := p
        obtain ⟨c1, c2, _⟩ := execution_status_spec.1 wEnv wState
          Option.none (some "p1") record st' heq
        exact ⟨c1, c2⟩
  · cases heq : executeStreamService wEnv wState Option.none
        (some "p1") with
    | error e =>
        have hok : (executeStreamService wEnv wState Option.none
            (some "p1")).isOk = true := rfl
        rw [heq] at hok
        exact Bool.noConfusion hok
    | ok p =>
        obtain ⟨evs, record, st'⟩ := p
        exact (execution_status_spec.2.1 wEnv wState Option.none
          (some "p1") evs record st' heq).1
  · cases heq : reExecuteService wEnv wState "p1" Option.none true with
    | error e =>
        have hok : (reExecuteService wEnv wState "p1" Option.none
            true).isOk = true := rfl
        rw [heq] at hok
        exact Bool.noConfusion hok
    | ok p =>
        obtain ⟨record, st'⟩ := p
        exact (execution_status_spec.2.2 wEnv wState "p1" Option.none
          true record st' heq).1

/-- C2: during `execute`, a step whose agent name is not registered is
recorded `failed` with error exactly `Agent '<name>' is not
registered`; a step whose agent still fails after retries are
exhausted is recorded `failed` with the final exception's message; in
both cases nothing is raised and the walk continues: every node of the
list is processed and contributes exactly one step result. -/
theorem execute_step_failure_spec :
    (∀ (env : Env) (st : LoopState) (node : StepDoc),
      lookupAgent env.agents
          ((st.plan_steps.find? (fun s => s.id = node.id)).getD
            node).agent = Option.none →
      (execNode env st node).steps_results =
        st.steps_results ++
          [{ id := ((st.plan_steps.find? (fun s => s.id = node.id)).getD
                node).id,
             agent := ((st.plan_steps.find?
                (fun s => s.id = node.id)).getD node).agent,
             dependencies := ((st.plan_steps.find?
                (fun s => s.id = node.id)).getD node).dependencies,
             expected_artifacts := ((st.plan_steps.find?
                (fun s => s.id = node.id)).getD node).expected_artifacts,
             phase := ((st.plan_steps.find?
                (fun s => s.id = node.id)).getD node).phase,
             status := some "failed",
             error := some ("Agent '" ++
               ((st.plan_steps.find? (fun s => s.id = node.id)).getD
                 node).agent ++ "' is not registered") }]) ∧
    (∀ (env : Env) (st : LoopState) (node : StepDoc)
        (agent : AgentBehavior) (e : Exc),
      lookupAgent env.agents
          ((st.plan_steps.find? (fun s => s.id = node.id)).getD
            node).agent = some agent →
      (retry_async
          (agent (buildAgentInput env st.plan_matter st.propagated
            ((st.plan_steps.find? (fun s => s.id = node.id)).getD
              node)))
          env.retry_policy).success = false →
      (retry_async
          (agent (buildAgentInput env st.plan_matter st.propagated
            ((st.plan_steps.find? (fun s => s.id = node.id)).getD
              node)))
          env.retry_policy).last_exception = some e →
      (execNode env st node).steps_results =
        st.steps_results ++
          [{ id := ((st.plan_steps.find? (fun s => s.id = node.id)).getD
                node).id,
             agent := ((st.plan_steps.find?
                (fun s => s.id = node.id)).getD node).agent,
             dependencies := ((st.plan_steps.find?
                (fun s => s.id = node.id)).getD node).dependencies,
             expected_artifacts := ((st.plan_steps.find?
                (fun s => s.id = node.id)).getD node).expected_artifacts,
             phase := ((st.plan_steps.find?
                (fun s => s.id = node.id)).getD node).phase,
             status := some "failed", error := some e.msg }]) ∧
    (∀ (env : Env) (st : LoopState) (nodes : List StepDoc),
      (execLoop env st nodes).steps_results.length =
        st.steps_results.length + nodes.length) := by
  refine ⟨?_, ?_, ?_⟩
  · intro env st node h
    simp only [execNode, h]
    rfl
  · intro env st node agent e hl hsucc hlast
    simp only [execNode, hl, hsucc, hlast]
    simp only [Bool.false_eq_true, if_false, Option.getD_some]
    rfl
  · intro env st nodes
    induction nodes generalizing st with
    | nil => rfl
    | cons n rest ih =>
      have hc := (execNode_char env st n).1
      calc (execLoop env (execNode env st n) rest).steps_results.length
          = (execNode env st n).steps_results.length + rest.length :=
            ih (execNode env st n)
        _ = st.steps_results.length + (rest.length + 1) := by
            rw [hc]; simp; omega
        _ = st.steps_results.length + (n :: rest).length := by simp

/-- A concrete agent that always raises, for evaluating the model. -/
def wFailAgent : AgentBehavior := fun _ _ => Except.error ⟨"E", "kaboom"⟩

/-- A concrete environment with only the failing agent registered. -/
def wEnvFail : Env := { agents := [("bad", wFailAgent)] }

/-- An empty loop state. -/
def wLoop0 : LoopState := { plan_matter := [], plan_steps := [] }

/-- A node referring to an unregistered agent. -/
def wNodeGhost : StepDoc := { id := "s1", agent := "ghost" }

/-- A node referring to the always-failing agent. -/
def wNodeBad : StepDoc := { id := "s2", agent := "bad" }

/-- Witness for `execute_step_failure_spec` on concrete nodes. -/
theorem execute_step_failure_spec_witness :
    (execNode wEnvFail wLoop0 wNodeGhost).steps_results =
      [{ id := "s1", agent := "ghost", dependencies := [],
         expected_artifacts := [], phase := Value.none,
         status := some "failed",
         error := some "Agent 'ghost' is not registered" }] ∧
    (execNode wEnvFail wLoop0 wNodeBad).steps_results =
      [{ id := "s2", agent := "bad", dependencies := [],
         expected_artifacts := [], phase := Value.none,
         status := some "failed", error := some "kaboom" }] ∧
    (execLoop wEnvFail wLoop0 [wNodeGhost, wNodeBad]).steps_results.length
      = 2 := by
  refine ⟨?_, ?_, ?_⟩
  · exact execute_step_failure_spec.1 wEnvFail wLoop0 wNodeGhost rfl
  · exact execute_step_failure_spec.2.1 wEnvFail wLoop0 wNodeBad
      wFailAgent ⟨"E", "kaboom"⟩ rfl rfl rfl
  · exact execute_step_failure_spec.2.2 wEnvFail wLoop0
      [wNodeGhost, wNodeBad]

/-- C8: `execute` and `execute_stream` fail with a typed
`ValidationError` when both `matter` and `plan_id` are `None` and when
a supplied matter fails validation, and with `PlanNotFoundError` when
the given plan id names no persisted plan.  In the model an error
result carries no successor state at all (the success type is
`record × state`), so the persisted state is left unchanged and no
step runs before the error. -/
theorem execute_validation_spec :
    (∀ (env : Env) (st : OrchState),
      executeService env st Option.none Option.none =
        Except.error (OrchError.validation
          "Either 'matter' or 'plan_id' must be provided") ∧
      executeStreamService env st Option.none Option.none =
        Except.error (OrchError.validation
          "Either 'matter' or 'plan_id' must be provided")) ∧
    (∀ (env : Env) (st : OrchState) (m : Value) (e : OrchError),
      validate_matter (some m) = Except.error e →
      executeService env st (some m) Option.none = Except.error e ∧
      executeStreamService env st (some m) Option.none =
        Except.error e) ∧
    (∀ (env : Env) (st : OrchState) (p : String),
      pyStrip p ≠ "" →
      alookup st.plans (pyStrip p) = Option.none →
      executeService env st Option.none (some p) =
        Except.error (OrchError.planNotFound (pyStrip p)) ∧
      executeStreamService env st Option.none (some p) =
        Except.error (OrchError.planNotFound (pyStrip p))) := by
  refine ⟨?_, ?_, ?_⟩
  · intro env st
    exact ⟨rfl, rfl⟩
  · intro env st m e h
    constructor
    · simp [executeService, validate_execute_params, h]
    · simp [executeStreamService, validate_execute_params, h]
  · intro env st p h1 h2
    constructor
    · simp [executeService, validate_execute_params, validate_plan_id,
        h1, h2]
    · simp [executeStreamService, validate_execute_params,
        validate_plan_id, h1, h2]

/-- Witness for `execute_validation_spec` on concrete inputs. -/
theorem execute_validation_spec_witness :
    executeService wEnv wState Option.none Option.none =
      Except.error (OrchError.validation
        "Either 'matter' or 'plan_id' must be provided") ∧
    executeService wEnv wState (some (Value.dict [])) Option.none =
      Except.error (OrchError.validation
        "Matter must include a 'summary' field") ∧
    executeStreamService wEnv wState Option.none (some "nope") =
      Except.error (OrchError.planNotFound "nope") := by
  refine ⟨?_, ?_, ?_⟩
  · exact (execute_validation_spec.1 wEnv wState).1
  · exact (execute_validation_spec.2.1 wEnv wState (Value.dict [])
      (OrchError.validation "Matter must include a 'summary' field")
      rfl).1
  · exact (execute_validation_spec.2.2 wEnv wState "nope"
      (by decide) rfl).2

/-! ## Async execution (src/orchestrator/async_execution.py) -/

/-- `JobStatus`. -/
inductive JobStatus where
  | pending
  | running
  | completed
  | failed
  | cancelled
deriving DecidableEq, Repr

/-- `WebhookConfig` (headers as an association list, times as ℚ). -/
structure WebhookConfig where
  url : String
  headers : List (String × String) := []
  timeout_seconds : ℚ := 30
  retry_count : Nat := 3

/-- `AsyncJob` (datetimes as ℚ; `result` is the execution record the
wrapped service returned). -/
structure AsyncJob where
  job_id : String
  plan_id : String
  status : JobStatus := JobStatus.pending
  created_at : ℚ
  started_at : Option ℚ := Option.none
  completed_at : Option ℚ := Option.none
  result : Option ExecutionRecord := Option.none
  error : Option String := Option.none
  webhook : Option WebhookConfig := Option.none

/-- `start_async`: the job as created, stored and returned — status
`pending`, nothing run yet; execution happens later in the background
task. -/
def start_async (job_id plan_id : String) (now : ℚ)
    (webhook : Option WebhookConfig) : AsyncJob :=
  { job_id := job_id, plan_id := plan_id, created_at := now,
    webhook := webhook }

/-- `_send_webhook`: up to `retry_count` delivery attempts; `delivery`
is the network's outcome for each attempt index.  The job is only
read, never written, so the model returns just the delivery result. -/
def send_webhook (cfg : WebhookConfig) (delivery : Nat → Bool) : Bool :=
  (List.range cfg.retry_count).any delivery

/-- `_execute_job`: transition the job to `running`, run the wrapped
service's `execute(plan_id=...)` (its outcome is the `svc` argument),
then transition to `completed` with the result or to `failed` with the
exception's message; in the `finally` block attempt the webhook exactly
when one is configured.  Returns the final job, whether a webhook send
was attempted, and the delivery result — which is never written back
into the job. -/
def execute_job (job : AsyncJob) (svc : Except Exc ExecutionRecord)
    (t_start t_done : ℚ) (delivery : Nat → Bool) :
    AsyncJob × Bool × Bool :=
  let running : AsyncJob :=
    { job with status := JobStatus.running, started_at := some t_start }
  let done : AsyncJob :=
    match svc with
    | Except.ok result =>
        { running with
          status := JobStatus.completed, result := some result,
          completed_at := some t_done }
    | Except.error exc =>
        { running with
          status := JobStatus.failed, error := some exc.msg,
          completed_at := some t_done }
  match done.webhook with
  | some cfg => (done, true, send_webhook cfg delivery)
  | Option.none => (done, false, false)

/-- C9: `start_async` returns a `pending` job with no result and no
error; the background task marks the job `running` (it records
`started_at`) and finishes it `completed` with the service's record, or
`failed` with the exception's message; a webhook send is attempted
exactly when a webhook is configured, on either outcome; and the final
job — status, result and error included — does not depend on the
webhook delivery outcomes, so exhausted webhook retries never rewrite
the execution outcome. -/
theorem async_job_lifecycle_spec :
    (∀ (job_id plan_id : String) (now : ℚ) (w : Option WebhookConfig),
      (start_async job_id plan_id now w).status = JobStatus.pending ∧
      (start_async job_id plan_id now w).result = Option.none ∧
      (start_async job_id plan_id now w).error = Option.none) ∧
    (∀ (job : AsyncJob) (r : ExecutionRecord) (t1 t2 : ℚ)
        (d : Nat → Bool),
      (execute_job job (Except.ok r) t1 t2 d).1.status =
          JobStatus.completed ∧
      (execute_job job (Except.ok r) t1 t2 d).1.result = some r ∧
      (execute_job job (Except.ok r) t1 t2 d).1.started_at = some t1 ∧
      (execute_job job (Except.ok r) t1 t2 d).1.error = job.error) ∧
    (∀ (job : AsyncJob) (e : Exc) (t1 t2 : ℚ) (d : Nat → Bool),
      (execute_job job (Except.error e) t1 t2 d).1.status =
          JobStatus.failed ∧
      (execute_job job (Except.error e) t1 t2 d).1.error = some e.msg ∧
      (execute_job job (Except.error e) t1 t2 d).1.started_at =
          some t1 ∧
      (execute_job job (Except.error e) t1 t2 d).1.result =
          job.result) ∧
    (∀ (job : AsyncJob) (svc : Except Exc ExecutionRecord) (t1 t2 : ℚ)
        (d : Nat → Bool),
      (execute_job job svc t1 t2 d).2.1 = job.webhook.isSome) ∧
    (∀ (job : AsyncJob) (svc : Except Exc ExecutionRecord) (t1 t2 : ℚ)
        (d d' : Nat → Bool),
      (execute_job job svc t1 t2 d).1 =
        (execute_job job svc t1 t2 d').1) := by
  refine ⟨?_, ?_, ?_, ?_, ?_⟩
  · intro job_id plan_id now w
    exact ⟨rfl, rfl, rfl⟩
  · intro job r t1 t2 d
    cases hw : job.webhook with
    | none => simp [execute_job, hw]
    | some cfg => simp [execute_job, hw]
  · intro job e t1 t2 d
    cases hw : job.webhook with
    | none => simp [execute_job, hw]
    | some cfg => simp [execute_job, hw]
  · intro job svc t1 t2 d
    cases svc with
    | ok r =>
        cases hw : job.webhook with
        | none => simp [execute_job, hw]
        | some cfg => simp [execute_job, hw]
    | error e =>
        cases hw : job.webhook with
        | none => simp [execute_job, hw]
        | some cfg => simp [execute_job, hw]
  · intro job svc t1 t2 d d'
    cases svc with
    | ok r =>
        cases hw : job.webhook with
        | none => simp [execute_job, hw]
        | some cfg => simp [execute_job, hw]
    | error e =>
        cases hw : job.webhook with
        | none => simp [execute_job, hw]
        | some cfg => simp [execute_job, hw]

/-! ## Artifact hoisting lemmas -/

/-- The collected artifacts dict never binds a name twice: it is built
by in-place `dset` writes from the empty dict. -/
theorem collect_keys_nodup (payload : Dict) (expected : List Value) :
    ((collect_expected_artifacts payload expected).map Prod.fst).Nodup := by
  unfold collect_expected_artifacts
  apply foldl_preserves (fun d : Dict => (d.map Prod.fst).Nodup)
  · intro b a hb
    dsimp only
    split
    · split
      · split
        · exact hb
        · split
          · exact hb
          · exact keys_nodup_dset b _ _ hb
      · exact hb
    · exact hb
  · simp

theorem dget_setMetaDocType_ne (d : Dict) (dt : Value) (name : String)
    (h1 : name ≠ "document_type") (h2 : name ≠ "metadata") :
    dget (setMetaDocType d dt) name = dget d name := by
  simp only [setMetaDocType]
  rw [dget_dset_ne _ _ _ _ (Ne.symm h2), dget_dset_ne _ _ _ _ (Ne.symm h1)]

theorem dget_ddaPrepare_ne (env : Env) (d : Dict) (name : String)
    (h1 : name ≠ "document_type") (h2 : name ≠ "metadata") :
    dget (ddaPrepare env d) name = dget d name := by
  unfold ddaPrepare
  dsimp only
  split
  · exact dget_setMetaDocType_ne d _ name h1 h2
  · split
    · exact dget_setMetaDocType_ne d _ name h1 h2
    · split <;> exact dget_setMetaDocType_ne d _ name h1 h2

/-- All branches of the finish step carry the supporting loop's matter
and propagated dicts through unchanged. -/
theorem execNodeFinish_state (env : Env) (st : LoopState)
    (stepId : String) (artifacts : Dict) (trace1 : List TraceEvent)
    (ss : SupportLoopState) (r : StepResult) (step' : StepDoc) :
    (execNodeFinish env st stepId artifacts trace1 ss r
        step').plan_matter = ss.plan_matter ∧
    (execNodeFinish env st stepId artifacts trace1 ss r
        step').propagated = ss.propagated := by
  unfold execNodeFinish
  dsimp only
  split
  · exact ⟨rfl, rfl⟩
  · split
    · exact ⟨rfl, rfl⟩
    · exact ⟨rfl, rfl⟩

/-- With no supporting agents, the success branch's propagated dict is
the agent-keyed write overlaid by the hoisted artifacts, and the matter
snapshot gains exactly the hoisted artifacts. -/
theorem execNodeSuccess_state (env : Env) (st : LoopState)
    (step : StepDoc) (base : StepResult) (trace0 : List TraceEvent)
    (output : Dict) (attempts : Nat)
    (hsupp : step.supporting_agents = []) :
    (execNodeSuccess env st step base trace0 output
        attempts).propagated =
      (if (collect_expected_artifacts output
            step.expected_artifacts).isEmpty then
        dset st.propagated step.agent (Value.dict output)
      else
        dupdate (dset st.propagated step.agent (Value.dict output))
          (collect_expected_artifacts output step.expected_artifacts)) ∧
    (execNodeSuccess env st step base trace0 output
        attempts).plan_matter =
      (if (collect_expected_artifacts output
            step.expected_artifacts).isEmpty then st.plan_matter
      else
        dupdate st.plan_matter
          (collect_expected_artifacts output
            step.expected_artifacts)) := by
  unfold execNodeSuccess
  dsimp only
  rw [hsupp]
  simp only [List.foldl_nil]
  exact ⟨(execNodeFinish_state env st _ _ _ _ _ _).2,
    (execNodeFinish_state env st _ _ _ _ _ _).1⟩

/-- Reading a hoisted name out of both overlays at once. -/
theorem dget_hoist (X m produced : Dict) (name : String) (v : Value)
    (hnd : (produced.map Prod.fst).Nodup)
    (hg : dget produced name = some v) :
    dget (if produced.isEmpty then X else dupdate X produced) name =
      some v ∧
    dget (if produced.isEmpty then m else dupdate m produced) name =
      some v := by
  have hne : produced.isEmpty = false := by
    cases produced with
    | nil => simp [dget] at hg
    | cons a t => rfl
  simp only [hne, Bool.false_eq_true, if_false]
  exact ⟨dget_dupdate_of_nodup X produced name v hnd hg,
    dget_dupdate_of_nodup m produced name v hnd hg⟩

/-- C3 (amended): (1) when a step with no supporting agents completes
and the expected-artifact search finds a value under a declared name,
`execute` hoists that binding into both `propagated` and the running
matter snapshot; (2) an agent input built from a matter snapshot and a
duplicate-free propagated context binding the name carries it as a
top-level key, provided the name is none of the reserved input keys
`connectors`, `document_type`, `metadata`; (3) an iteration of the
walk preserves an existing propagated binding whose name is neither
the step's agent name nor hoisted again by it.  The claim as stated
fails when the output's value under the declared name is `None`: the
search skips it and nothing is hoisted (see the counterexample). -/
theorem artifact_hoisting_spec :
    (∀ (env : Env) (st : LoopState) (node : StepDoc)
        (agent : AgentBehavior) (name : String) (v : Value),
      lookupAgent env.agents
          ((st.plan_steps.find? (fun s => s.id = node.id)).getD
            node).agent = some agent →
      ((st.plan_steps.find? (fun s => s.id = node.id)).getD
          node).supporting_agents = [] →
      (retry_async
          (agent (buildAgentInput env st.plan_matter st.propagated
            ((st.plan_steps.find? (fun s => s.id = node.id)).getD
              node)))
          env.retry_policy).success = true →
      dget
          (collect_expected_artifacts
            ((retry_async
                (agent (buildAgentInput env st.plan_matter st.propagated
                  ((st.plan_steps.find? (fun s => s.id = node.id)).getD
                    node)))
                env.retry_policy).result.getD [])
            ((st.plan_steps.find? (fun s => s.id = node.id)).getD
              node).expected_artifacts) name = some v →
      dget (execNode env st node).propagated name = some v ∧
      dget (execNode env st node).plan_matter name = some v) ∧
    (∀ (env : Env) (m p : Dict) (step : StepDoc) (name : String)
        (v : Value),
      (p.map Prod.fst).Nodup →
      dget p name = some v →
      name ≠ "connectors" → name ≠ "document_type" →
      name ≠ "metadata" →
      dget (buildAgentInput env m p step) name = some v) ∧
    (∀ (env : Env) (st : LoopState) (node : StepDoc) (name : String)
        (v : Value),
      dget st.propagated name = some v →
      ((st.plan_steps.find? (fun s => s.id = node.id)).getD
          node).agent ≠ name →
      ((st.plan_steps.find? (fun s => s.id = node.id)).getD
          node).supporting_agents = [] →
      (∀ agent : AgentBehavior,
        lookupAgent env.agents
            ((st.plan_steps.find? (fun s => s.id = node.id)).getD
              node).agent = some agent →
        containsKey
            (collect_expected_artifacts
              ((retry_async
                  (agent (buildAgentInput env st.plan_matter
                    st.propagated
                    ((st.plan_steps.find?
                      (fun s => s.id = node.id)).getD node)))
                  env.retry_policy).result.getD [])
              ((st.plan_steps.find? (fun s => s.id = node.id)).getD
                node).expected_artifacts) name = false) →
      dget (execNode env st node).propagated name = some v) := by
  refine ⟨?_, ?_, ?_⟩
  · intro env st node agent name v hl hsupp hs hg
    simp only [execNode, hl]
    rw [if_pos hs]
    rw [(execNodeSuccess_state env st _ _ _ _ _ hsupp).1,
      (execNodeSuccess_state env st _ _ _ _ _ hsupp).2]
    exact dget_hoist _ _ _ name v (collect_keys_nodup _ _) hg
  · intro env m p step name v hnd hp hc hd hm
    have hbase : dget (baseAgentInput env m p step) name = some v := by
      unfold baseAgentInput
      dsimp only
      split
      · exact dget_dupdate_of_nodup m p name v hnd hp
      · rw [dget_dset_ne _ _ _ _ (Ne.symm hc)]
        exact dget_dupdate_of_nodup m p name v hnd hp
    unfold buildAgentInput
    dsimp only
    split
    · rw [dget_ddaPrepare_ne env _ name hd hm]
      exact hbase
    · exact hbase
  · intro env st node name v hv hag hsupp hcoll
    cases hl : lookupAgent env.agents
        ((st.plan_steps.find? (fun s => s.id = node.id)).getD
          node).agent with
    | none =>
        simp only [execNode, hl]
        exact hv
    | some agent =>
        have hc := containsKey_eq_false_forall _ name (hcoll agent hl)
        simp only [execNode, hl]
        split
        · rw [(execNodeSuccess_state env st _ _ _ _ _ hsupp).1]
          split
          · rw [dget_dset_ne _ _ _ _ hag]
            exact hv
          · rw [dget_dupdate_not_mem _ _ name hc,
              dget_dset_ne _ _ _ _ hag]
            exact hv
        · exact hv

/-- An agent whose output carries the declared artifact name bound to
`None`. -/
def cAgentNone : AgentBehavior := fun _ _ =>
  Except.ok [("facts", Value.none)]

/-- A second registered agent for the downstream step. -/
def cAgent2 : AgentBehavior := fun _ _ => Except.ok []

/-- The environment of the hoisting counterexample. -/
def cEnvH : Env := { agents := [("a1", cAgentNone), ("a2", cAgent2)] }

/-- The step declaring `facts` as an expected artifact. -/
def cStep1 : StepDoc :=
  { id := "s1", agent := "a1",
    expected_artifacts := [Value.dict [("name", Value.str "facts")]] }

/-- The downstream step. -/
def cStep2 : StepDoc := { id := "s2", agent := "a2" }

/-- The initial loop state of the counterexample. -/
def cLs0 : LoopState :=
  { plan_matter := [("summary", Value.str "S")],
    plan_steps := [cStep1, cStep2] }

/-- C3 counterexample: the step completes and its recorded output
contains the declared name `facts` at top level (bound to `None`), yet
nothing is hoisted — `propagated` and the matter snapshot do not bind
`facts`, and the downstream step's agent input has no top-level
`facts` key.  This refutes the claim's "output contains that name at
top level … so every subsequent step's agent input contains that name
as a top-level key equal to that value". -/
theorem artifact_hoisting_counterexample :
    (lastR (execNode cEnvH cLs0 cStep1)).status = some "complete" ∧
    (lastR (execNode cEnvH cLs0 cStep1)).output =
      some [("facts", Value.none)] ∧
    containsKey [("facts", Value.none)] "facts" = true ∧
    dget (execNode cEnvH cLs0 cStep1).propagated "facts" =
      Option.none ∧
    dget (execNode cEnvH cLs0 cStep1).plan_matter "facts" =
      Option.none ∧
    dget
        (buildAgentInput cEnvH (execNode cEnvH cLs0 cStep1).plan_matter
          (execNode cEnvH cLs0 cStep1).propagated cStep2) "facts" =
      Option.none := by
  refine ⟨?_, ?_, ?_, ?_, ?_, ?_⟩ <;> rfl

/-- An agent whose output carries the declared artifact name bound to
a real value. -/
def wAgentH : AgentBehavior := fun _ _ =>
  Except.ok [("facts", Value.dict [("f1", Value.int 1)])]

/-- The environment of the hoisting witness. -/
def wEnvH : Env := { agents := [("a1", wAgentH)] }

/-- The witness node declaring `facts`. -/
def wNodeH : StepDoc :=
  { id := "s1", agent := "a1",
    expected_artifacts := [Value.dict [("name", Value.str "facts")]] }

/-- The witness loop state. -/
def wLoopH : LoopState :=
  { plan_matter := [("summary", Value.str "S")], plan_steps := [] }

/-- A witness node that declares nothing. -/
def wNodeK : StepDoc := { id := "s9", agent := "a1" }

/-- A witness loop state that already propagates `facts`. -/
def wLoopK : LoopState :=
  { plan_matter := [], plan_steps := [],
    propagated := [("facts", Value.int 7)] }

/-- Witness for `artifact_hoisting_spec` on concrete inputs. -/
theorem artifact_hoisting_spec_witness :
    (dget (execNode wEnvH wLoopH wNodeH).propagated "facts" =
        some (Value.dict [("f1", Value.int 1)]) ∧
      dget (execNode wEnvH wLoopH wNodeH).plan_matter "facts" =
        some (Value.dict [("f1", Value.int 1)])) ∧
    dget
        (buildAgentInput wEnvH [("summary", Value.str "S")]
          [("facts", Value.int 7)] wNodeK) "facts" =
      some (Value.int 7) ∧
    dget (execNode wEnvH wLoopK wNodeK).propagated "facts" =
      some (Value.int 7) := by
  refine ⟨?_, ?_, ?_⟩
  · exact artifact_hoisting_spec.1 wEnvH wLoopH wNodeH wAgentH "facts"
      (Value.dict [("f1", Value.int 1)]) rfl rfl rfl rfl
  · exact artifact_hoisting_spec.2.1 wEnvH [("summary", Value.str "S")]
      [("facts", Value.int 7)] wNodeK "facts" (Value.int 7) (by simp)
      rfl (by decide) (by decide) (by decide)
  · exact artifact_hoisting_spec.2.2 wEnvH wLoopK wNodeK "facts"
      (Value.int 7) rfl (by decide) rfl (fun a ha => rfl)

/-! ## Resume semantics lemmas (re_execute) -/

/-- The restore loop replays exactly the previous steps recorded
`complete` that precede the resume point, in order and verbatim, and
reports whether the resume point was found among the previous steps. -/
theorem restorePrefix_steps (start : String) (prev : List StepResult) :
    ∀ ls : LoopState,
      (restorePrefix start prev ls).1.steps_results =
        ls.steps_results ++
          ((prev.takeWhile (fun s => !(s.id = start))).filter
            (fun s => s.status = some "complete")) ∧
      (restorePrefix start prev ls).2 =
        prev.any (fun s => s.id = start) := by
  induction prev with
  | nil => intro ls; simp [restorePrefix]
  | cons s rest ih =>
    intro ls
    by_cases hid : s.id = start
    · constructor
      · simp [restorePrefix, hid]
      · simp [restorePrefix, hid]
    · by_cases hst : s.status = some "complete"
      · constructor
        · have hr := (ih (restoreStep ls s)).1
          simp only [restorePrefix, if_neg hid, if_pos hst]
          rw [hr, (restoreStep_fields ls s).1]
          simp [hid, hst]
        · have hr := (ih (restoreStep ls s)).2
          simp [restorePrefix, hid, hst, hr]
      · constructor
        · have hr := (ih ls).1
          simp [restorePrefix, hid, hst, hr]
        · have hr := (ih ls).2
          simp [restorePrefix, hid, hst, hr]

/-- The walk of `re_execute` only appends to the preserved results. -/
theorem reExecFold_extends (env : Env) (start : Option String)
    (nodes : List StepDoc) :
    ∀ rs : ReExecState, ∃ tail : List StepResult,
      (nodes.foldl (reExecNode env start) rs).ls.steps_results =
        rs.ls.steps_results ++ tail := by
  induction nodes with
  | nil => exact fun rs => ⟨[], by simp⟩
  | cons n rest ih =>
    intro rs
    obtain ⟨tail, htail⟩ := ih (reExecNode env start rs n)
    rcases reExecNode_char env start rs n with heq | hc
    · refine ⟨tail, ?_⟩
      simp only [List.foldl_cons]
      rw [htail, heq]
    · refine ⟨lastR (reExecNode env start rs n).ls :: tail, ?_⟩
      simp only [List.foldl_cons]
      rw [htail, hc.1]
      simp

/-- The re-executed record replays the preserved `complete` prefix
first and is flagged `re_execution`. -/
theorem reExecuteCore_steps (env : Env) (st : OrchState) (pid : String)
    (plan : Plan) (prev : ExecutionRecord) (start : String) :
    (reExecuteCore env st pid plan (some prev)
      (some start)).1.re_execution = true ∧
    ∃ tail : List StepResult,
      (reExecuteCore env st pid plan (some prev) (some start)).1.steps =
        ((prev.steps.takeWhile (fun s => !(s.id = start))).filter
          (fun s => s.status = some "complete")) ++ tail := by
  constructor
  · rfl
  · simp only [reExecuteCore, Option.isNone_some, Bool.false_or]
    obtain ⟨tail, htail⟩ := reExecFold_extends env (some start) plan.graph
      { ls := (restorePrefix start prev.steps
          { plan_matter := plan.matter, plan_steps := plan.steps }).1,
        past_start_point := (restorePrefix start prev.steps
          { plan_matter := plan.matter, plan_steps := plan.steps }).2 }
    refine ⟨tail, ?_⟩
    rw [htail,
      (restorePrefix_steps start prev.steps
        { plan_matter := plan.matter, plan_steps := plan.steps }).1]
    simp

/-- C4 (amended): with `resume_from_failure=True` and no `from_step`,
`re_execute` resumes at the first step whose previous recorded status
was `failed` (part 1); the restore loop replays verbatim exactly those
previous steps recorded `complete` that precede the resume point —
steps recorded with any other status there are dropped, not replayed
(part 2); before the resume point is passed a node is skipped without
running (part 3); once past it, a node whose id already appears among
the preserved results is skipped (part 4) — a dropped non-`complete`
prefix step is therefore re-run, not skipped; and the resulting record
is flagged `re_execution` and opens with the preserved prefix
(part 5). -/
theorem resume_replay_spec :
    (∀ (prev : ExecutionRecord) (sf : StepResult),
      prev.steps.find? (fun s => s.status = some "failed") = some sf →
      resumeStartStepId Option.none true (some prev) = some sf.id) ∧
    (∀ (start : String) (prev : List StepResult) (ls : LoopState),
      (restorePrefix start prev ls).1.steps_results =
        ls.steps_results ++
          ((prev.takeWhile (fun s => !(s.id = start))).filter
            (fun s => s.status = some "complete")) ∧
      (restorePrefix start prev ls).2 =
        prev.any (fun s => s.id = start)) ∧
    (∀ (env : Env) (start : Option String) (rs : ReExecState)
        (node : StepDoc),
      rs.past_start_point = false →
      ¬(some ((rs.ls.plan_steps.find? (fun s => s.id = node.id)).getD
          node).id = start) →
      (reExecNode env start rs node).ls = rs.ls ∧
      (reExecNode env start rs node).past_start_point = false) ∧
    (∀ (env : Env) (start : Option String) (rs : ReExecState)
        (node : StepDoc),
      rs.past_start_point = true →
      rs.ls.steps_results.any
          (fun r => r.id =
            ((rs.ls.plan_steps.find? (fun s => s.id = node.id)).getD
              node).id) = true →
      (reExecNode env start rs node).ls = rs.ls ∧
      (reExecNode env start rs node).past_start_point = true) ∧
    (∀ (env : Env) (st : OrchState) (pid : String) (plan : Plan)
        (prev : ExecutionRecord) (start : String),
      (reExecuteCore env st pid plan (some prev)
        (some start)).1.re_execution = true ∧
      ∃ tail : List StepResult,
        (reExecuteCore env st pid plan (some prev)
            (some start)).1.steps =
          ((prev.steps.takeWhile (fun s => !(s.id = start))).filter
            (fun s => s.status = some "complete")) ++ tail) := by
  refine ⟨?_, ?_, ?_, ?_, ?_⟩
  · intro prev sf h
    simp [resumeStartStepId, h]
  · intro start prev ls
    exact restorePrefix_steps start prev ls
  · intro env start rs node hp hne
    have hd : decide (some ((rs.ls.plan_steps.find?
        (fun s => s.id = node.id)).getD node).id = start) = false :=
      decide_eq_false hne
    unfold reExecNode
    dsimp only
    rw [hp, hd]
    simp
  · intro env start rs node hp hin
    unfold reExecNode
    dsimp only
    rw [hp, hin]
    simp
  · intro env st pid plan prev start
    exact reExecuteCore_steps env st pid plan prev start

/-- The previous attention-required step of the C4 counterexample. -/
def dS1res : StepResult :=
  { id := "s1", agent := "a1", status := some "attention_required" }

/-- The previous failed step of the C4 counterexample. -/
def dS2res : StepResult :=
  { id := "s2", agent := "a2", status := some "failed" }

/-- The persisted previous execution of the C4 counterexample. -/
def dPrev : ExecutionRecord :=
  { plan_id := "p4", status := "failed", steps := [dS1res, dS2res] }

/-- The two plan nodes of the C4 counterexample. -/
def dStep1 : StepDoc := { id := "s1", agent := "a1" }

/-- The second plan node. -/
def dStep2 : StepDoc := { id := "s2", agent := "a2" }

/-- The persisted plan of the C4 counterexample. -/
def dPlan : Plan :=
  { plan_id := "p4", status := "failed",
    matter := [("summary", Value.str "S")],
    graph := [dStep1, dStep2], steps := [dStep1, dStep2] }

/-- The persisted state of the C4 counterexample. -/
def dSt : OrchState :=
  { plans := [("p4", dPlan)], executions := [("p4", dPrev)] }

/-- The environment of the C4 counterexample. -/
def dEnv : Env := { agents := [("a1", cAgent2), ("a2", cAgent2)] }

/-- The record `re_execute("p4")` produces in the counterexample. -/
def dRec : ExecutionRecord :=
  match reExecuteService dEnv dSt "p4" Option.none true with
  | Except.ok p => p.1
  | Except.error _ => { plan_id := "", status := "", steps := [] }

/-- C4 counterexample: the previous execution recorded step `s1` as
`attention_required` and `s2` as `failed`; resuming from failure
starts at `s2`, yet `s1` is not replayed verbatim — its preserved
`attention_required` result is dropped and the step is re-run, so the
new record holds a fresh `complete` result for `s1`.  This refutes
both "every previous-execution step before that resume point is
replayed verbatim" and "new agent runs start only at the resume
point". -/
theorem resume_replay_counterexample :
    dPrev.steps.map (fun s => (s.id, s.status)) =
      [("s1", some "attention_required"), ("s2", some "failed")] ∧
    resumeStartStepId Option.none true (some dPrev) = some "s2" ∧
    dRec.re_execution = true ∧
    dRec.steps.map (fun r => (r.id, r.status)) =
      [("s1", some "complete"), ("s2", some "complete")] := by
  refine ⟨?_, ?_, ?_, ?_⟩ <;> rfl

/-- An empty re-execution walk state before the resume point. -/
def dRs0 : ReExecState :=
  { ls := { plan_matter := [], plan_steps := [] },
    past_start_point := false }

/-- A walk state past the resume point whose preserved results already
contain step `s1`. -/
def dRs1 : ReExecState :=
  { ls :=
      { plan_matter := [], plan_steps := [],
        steps_results := [dS1res] },
    past_start_point := true }

/-- Witness for `resume_replay_spec` on concrete inputs. -/
theorem resume_replay_spec_witness :
    resumeStartStepId Option.none true (some dPrev) = some "s2" ∧
    ((reExecNode dEnv (some "s2") dRs0 dStep1).ls = dRs0.ls ∧
      (reExecNode dEnv (some "s2") dRs0 dStep1).past_start_point =
        false) ∧
    ((reExecNode dEnv (some "s2") dRs1 dStep1).ls = dRs1.ls ∧
      (reExecNode dEnv (some "s2") dRs1 dStep1).past_start_point =
        true) := by
  refine ⟨?_, ?_, ?_⟩
  · exact resume_replay_spec.1 dPrev dS2res rfl
  · exact resume_replay_spec.2.2.1 dEnv (some "s2") dRs0 dStep1 rfl
      (by decide)
  · exact resume_replay_spec.2.2.2.1 dEnv (some "s2") dRs1 dStep1 rfl
      rfl

/-! ## Heap model for `deepcopy` decoupling (claim C10)

The dict documents the service persists and returns are mutable Python
objects.  To reason about `deepcopy`, dict objects live on an explicit
heap of numbered addresses; `copy.deepcopy` is read-out to an immutable
tree followed by a fresh allocation, exactly its effect on acyclic
dict data.  A client "mutating a returned dictionary" is a sequence of
writes at addresses reachable from the returned root. -/

/-- A heap value: an immutable leaf or a reference to a dict object. -/
inductive HVal where
  | prim (v : Value)
  | ref (a : Nat)

/-- A dict object on the heap: insertion-ordered fields. -/
abbrev HObj := List (String × HVal)

/-- Nat-keyed replace-or-append store. -/
def astoreN {β : Type} (xs : List (Nat × β)) (k : Nat) (v : β) :
    List (Nat × β) :=
  match xs with
  | [] => [(k, v)]
  | (k', v') :: rest =>
      if k' = k then (k, v) :: rest else (k', v') :: astoreN rest k v

/-- Nat-keyed lookup. -/
def alookupN {β : Type} (xs : List (Nat × β)) (k : Nat) : Option β :=
  match xs with
  | [] => Option.none
  | (k', v) :: rest => if k' = k then some v else alookupN rest k

/-- The heap: dict objects by address and the next fresh address. -/
structure Heap where
  objs : List (Nat × HObj) := []
  next : Nat := 0

/-- The object stored at an address (empty when unallocated). -/
def hget (h : Heap) (a : Nat) : HObj :=
  (alookupN h.objs a).getD []

mutual

/-- Allocate an immutable tree on the heap as fresh dict objects,
returning the new heap and the root heap value. -/
def allocV : Heap → Value → Heap × HVal
  | h, Value.dict xs =>
      let hf := allocFields h xs
      let b := hf.1.next
      ({ objs := astoreN hf.1.objs b hf.2, next := b + 1 }, HVal.ref b)
  | h, v => (h, HVal.prim v)

/-- Allocate the field values of one dict object left to right. -/
def allocFields : Heap → List (String × Value) → Heap × HObj
  | h, [] => (h, [])
  | h, (k, v) :: rest =>
      let r := allocV h v
      let rr := allocFields r.1 rest
      (rr.1, (k, r.2) :: rr.2)

end

/-- Read a heap value out to an immutable tree, following references
up to `fuel` levels deep (enough fuel reads any acyclic document
exactly). -/
def readV (h : Heap) : Nat → HVal → Value
  | 0, _ => Value.none
  | Nat.succ f, hv =>
      match hv with
      | HVal.prim v => v
      | HVal.ref a =>
          Value.dict ((hget h a).map (fun kv => (kv.1, readV h f kv.2)))

/-- The addresses reachable from a root within `fuel` levels. -/
def reachV (h : Heap) : Nat → HVal → List Nat
  | 0, _ => []
  | Nat.succ f, hv =>
      match hv with
      | HVal.prim _ => []
      | HVal.ref a =>
          a :: ((hget h a).map (fun kv => reachV h f kv.2)).flatten

/-- A client mutation: overwrite whole objects at given addresses
(`d[k] = v`, `d.update(...)`, `d.clear()` … are all of this shape). -/
def hwrites (h : Heap) : List (Nat × HObj) → Heap
  | [] => h
  | (a, o) :: rest => hwrites { h with objs := astoreN h.objs a o } rest

/-- A heap value refers only below address `n`. -/
def hvalBelow (n : Nat) : HVal → Bool
  | HVal.prim _ => true
  | HVal.ref a => a < n

/-- A heap value refers only at or above address `n`. -/
def hvalAbove (n : Nat) : HVal → Bool
  | HVal.prim _ => true
  | HVal.ref a => n ≤ a

/-- Every allocated object sits below `next` and refers only below
`next`. -/
abbrev heapWF (h : Heap) : Prop :=
  ∀ p ∈ h.objs, p.1 < h.next ∧ ∀ kv ∈ p.2, hvalBelow h.next kv.2 = true

/-- Objects at or above `n0` refer only at or above `n0`. -/
abbrev segAbove (n0 : Nat) (h : Heap) : Prop :=
  ∀ p ∈ h.objs, n0 ≤ p.1 → ∀ kv ∈ p.2, hvalAbove n0 kv.2 = true

/-- `copy.deepcopy` on an acyclic document: read it out and allocate a
fresh, disjoint copy. -/
def deepcopy (h : Heap) (fuel : Nat) (root : HVal) : Heap × HVal :=
  allocV h (readV h fuel root)

/-- The persisted store with documents as heap roots. -/
structure DocStore where
  heap : Heap := {}
  plans : List (String × HVal) := []
  executions : List (String × HVal) := []

/-- The persistence tail of `plan()` (service.py lines 149-151):
`remember_plan(plan_id, deepcopy(plan))`; the caller keeps the
original root. -/
def remember_plan (fuel : Nat) (s : DocStore) (pid : String)
    (root : HVal) : DocStore :=
  let r := deepcopy s.heap fuel root
  { s with heap := r.1, plans := astore s.plans pid r.2 }

/-- `get_plan(plan_id)` (service.py lines 660-664): recall, then
return `deepcopy(plan)`. -/
def get_plan_doc (fuel : Nat) (s : DocStore) (pid : String) :
    Option (DocStore × HVal) :=
  match alookup s.plans pid with
  | Option.none => Option.none
  | some root =>
      let r := deepcopy s.heap fuel root
      some ({ s with heap := r.1 }, r.2)

/-- `get_execution(plan_id)` (service.py lines 696-700): recall, then
return `deepcopy(execution)`. -/
def get_execution_doc (fuel : Nat) (s : DocStore) (pid : String) :
    Option (DocStore × HVal) :=
  match alookup s.executions pid with
  | Option.none => Option.none
  | some root =>
      let r := deepcopy s.heap fuel root
      some ({ s with heap := r.1 }, r.2)

/-- The `execution.get("artifacts", {})` sub-root `get_artifacts`
copies. -/
def artifactsRoot (h : Heap) (root : HVal) : HVal :=
  match root with
  | HVal.ref a =>
      match alookup (hget h a) "artifacts" with
      | some hv => hv
      | Option.none => HVal.prim (Value.dict [])
  | _ => HVal.prim Value.none

/-- `get_artifacts(plan_id)` (service.py lines 678-682): recall, then
return `deepcopy(execution.get("artifacts", {}))`. -/
def get_artifacts_doc (fuel : Nat) (s : DocStore) (pid : String) :
    Option (DocStore × HVal) :=
  match alookup s.executions pid with
  | Option.none => Option.none
  | some root =>
      let r := deepcopy s.heap fuel (artifactsRoot s.heap root)
      some ({ s with heap := r.1 }, r.2)

/-- Persisted roots are well-formed heap documents. -/
abbrev storeWF (s : DocStore) : Prop :=
  heapWF s.heap ∧
  (∀ p ∈ s.plans, hvalBelow s.heap.next p.2 = true) ∧
  (∀ p ∈ s.executions, hvalBelow s.heap.next p.2 = true)

theorem alookupN_astoreN_self {β : Type} (xs : List (Nat × β)) (k : Nat)
    (v : β) : alookupN (astoreN xs k v) k = some v := by
  induction xs with
  | nil => simp [astoreN, alookupN]
  | cons hd tl ih =>
    by_cases h : hd.1 = k
    · simp [astoreN, alookupN, h]
    · simp [astoreN, alookupN, h, ih]

theorem alookupN_astoreN_ne {β : Type} (xs : List (Nat × β)) (k k' : Nat)
    (v : β) (h : k ≠ k') :
    alookupN (astoreN xs k v) k' = alookupN xs k' := by
  induction xs with
  | nil => simp [astoreN, alookupN, h]
  | cons hd tl ih =>
    by_cases hk : hd.1 = k
    · simp [astoreN, alookupN, hk, h]
    · simp only [astoreN, if_neg hk]
      by_cases hk' : hd.1 = k'
      · simp [alookupN, hk']
      · simp [alookupN, hk', ih]

theorem alookupN_mem {β : Type} (xs : List (Nat × β)) (k : Nat) (v : β)
    (h : alookupN xs k = some v) : (k, v) ∈ xs := by
  induction xs with
  | nil => simp [alookupN] at h
  | cons hd tl ih =>
    simp only [alookupN] at h
    by_cases hk : hd.1 = k
    · rw [if_pos hk] at h
      have hv : hd.2 = v := Option.some.inj h
      have heq : hd = (k, v) := by
        cases hd with
        | mk k0 v0 =>
          simp only at hk hv
          rw [hk, hv]
      rw [← heq]
      exact List.mem_cons_self _ _
    · rw [if_neg hk] at h
      exact List.mem_cons_of_mem _ (ih h)

theorem mem_astoreN {β : Type} (xs : List (Nat × β)) (k : Nat) (v : β)
    (p : Nat × β) (h : p ∈ astoreN xs k v) : p ∈ xs ∨ p = (k, v) := by
  induction xs with
  | nil => simpa [astoreN] using h
  | cons hd tl ih =>
    by_cases hk : hd.1 = k
    · simp only [astoreN, if_pos hk] at h
      rcases List.mem_cons.1 h with rfl | h
      · exact Or.inr rfl
      · exact Or.inl (List.mem_cons_of_mem _ h)
    · simp only [astoreN, if_neg hk] at h
      rcases List.mem_cons.1 h with rfl | h
      · exact Or.inl (List.mem_cons_self _ _)
      · rcases ih h with h | h
        · exact Or.inl (List.mem_cons_of_mem _ h)
        · exact Or.inr h

theorem hvalAbove_mono (m n : Nat) (hv : HVal) (h : m ≤ n)
    (ha : hvalAbove n hv = true) : hvalAbove m hv = true := by
  cases hv with
  | prim v => rfl
  | ref a =>
    simp only [hvalAbove, decide_eq_true_eq] at ha ⊢
    omega

theorem hwrites_next (ws : List (Nat × HObj)) :
    ∀ h : Heap, (hwrites h ws).next = h.next := by
  induction ws with
  | nil => intro h; rfl
  | cons w rest ih =>
    intro h
    cases w with
    | mk a o => exact ih { h with objs := astoreN h.objs a o }

theorem hwrites_lookup (ws : List (Nat × HObj)) :
    ∀ (h : Heap) (a : Nat), (∀ w ∈ ws, w.1 ≠ a) →
      alookupN (hwrites h ws).objs a = alookupN h.objs a := by
  induction ws with
  | nil => intro h a _; rfl
  | cons w rest ih =>
    intro h a hne
    cases w with
    | mk b o =>
      have hba : b ≠ a := hne (b, o) (List.mem_cons_self _ _)
      have := ih { h with objs := astoreN h.objs b o } a
        (fun w hw => hne w (List.mem_cons_of_mem _ hw))
      rw [show hwrites h ((b, o) :: rest) =
          hwrites { h with objs := astoreN h.objs b o } rest from rfl,
        this]
      exact alookupN_astoreN_ne h.objs b a o hba

theorem segAbove_of_heapWF (h : Heap) (hwf : heapWF h) :
    segAbove h.next h := by
  intro p hp hge
  exact absurd hge (by have := (hwf p hp).1; omega)

/-- In a well-formed heap, a document below `next` reaches only
addresses below `next`. -/
theorem reach_lt (h : Heap) (hwf : heapWF h) :
    ∀ (f : Nat) (root : HVal), hvalBelow h.next root = true →
      ∀ x ∈ reachV h f root, x < h.next := by
  intro f
  induction f with
  | zero => intro root _ x hx; simp [reachV] at hx
  | succ f ih =>
    intro root hb x hx
    cases root with
    | prim v => simp [reachV] at hx
    | ref a =>
      simp only [reachV] at hx
      rcases List.mem_cons.1 hx with rfl | hx
      · simpa [hvalBelow] using hb
      · rw [List.mem_flatten] at hx
        obtain ⟨l, hl, hxl⟩ := hx
        rw [List.mem_map] at hl
        obtain ⟨kv, hkv, rfl⟩ := hl
        cases ho : alookupN h.objs a with
        | none => simp [hget, ho] at hkv
        | some o =>
            have hmem := alookupN_mem h.objs a o ho
            have hfield := (hwf (a, o) hmem).2 kv
              (by simpa [hget, ho] using hkv)
            exact ih kv.2 hfield x hxl

/-- In a heap whose objects at or above `n0` refer only at or above
`n0`, a root at or above `n0` reaches only addresses at or above
`n0`. -/
theorem reach_ge (n0 : Nat) (h : Heap) (hseg : segAbove n0 h) :
    ∀ (f : Nat) (root : HVal), hvalAbove n0 root = true →
      ∀ x ∈ reachV h f root, n0 ≤ x := by
  intro f
  induction f with
  | zero => intro root _ x hx; simp [reachV] at hx
  | succ f ih =>
    intro root hb x hx
    cases root with
    | prim v => simp [reachV] at hx
    | ref a =>
      have hna : n0 ≤ a := by simpa [hvalAbove] using hb
      simp only [reachV] at hx
      rcases List.mem_cons.1 hx with rfl | hx
      · exact hna
      · rw [List.mem_flatten] at hx
        obtain ⟨l, hl, hxl⟩ := hx
        rw [List.mem_map] at hl
        obtain ⟨kv, hkv, rfl⟩ := hl
        cases ho : alookupN h.objs a with
        | none => simp [hget, ho] at hkv
        | some o =>
            have hmem := alookupN_mem h.objs a o ho
            have hfield := hseg (a, o) hmem hna kv
              (by simpa [hget, ho] using hkv)
            exact ih kv.2 hfield x hxl

/-- Two heaps that agree on every address a document reaches read that
document out identically (and reach the same addresses). -/
theorem readV_reachV_agree :
    ∀ (f : Nat) (root : HVal) (h1 h2 : Heap),
      (∀ a ∈ reachV h1 f root,
        alookupN h2.objs a = alookupN h1.objs a) →
      readV h2 f root = readV h1 f root ∧
      reachV h2 f root = reachV h1 f root := by
  intro f
  induction f with
  | zero => intro root h1 h2 _; exact ⟨rfl, rfl⟩
  | succ f ih =>
    intro root h1 h2 hag
    cases root with
    | prim v => exact ⟨rfl, rfl⟩
    | ref a =>
      have ha : alookupN h2.objs a = alookupN h1.objs a :=
        hag a (by simp [reachV])
      have hga : hget h2 a = hget h1 a := by simp [hget, ha]
      have hfield : ∀ kv ∈ hget h1 a,
          readV h2 f kv.2 = readV h1 f kv.2 ∧
          reachV h2 f kv.2 = reachV h1 f kv.2 := by
        intro kv hkv
        apply ih kv.2 h1 h2
        intro x hx
        apply hag
        simp only [reachV]
        exact List.mem_cons_of_mem _
          (List.mem_flatten.2
            ⟨reachV h1 f kv.2, List.mem_map_of_mem _ hkv, hx⟩)
      constructor
      · simp only [readV, hga]
        congr 1
        apply List.map_congr_left
        intro kv hkv
        rw [(hfield kv hkv).1]
      · simp only [reachV, hga]
        congr 1
        congr 1
        apply List.map_congr_left
        intro kv hkv
        exact (hfield kv hkv).2

/-- Allocation only moves the fresh-address counter up. -/
theorem alloc_next_le :
    (∀ (h : Heap) (v : Value), h.next ≤ (allocV h v).1.next) ∧
    (∀ (h : Heap) (xs : List (String × Value)),
      h.next ≤ (allocFields h xs).1.next) := by
  refine allocV.mutual_induct
    (fun h v => h.next ≤ (allocV h v).1.next)
    (fun h xs => h.next ≤ (allocFields h xs).1.next) ?_ ?_ ?_ ?_
  · intro h xs ih
    simp only [allocV]
    omega
  · intro h v hnd
    cases v with
    | dict xs => exact absurd rfl (hnd xs)
    | none => simp [allocV]
    | bool b => simp [allocV]
    | int n => simp [allocV]
    | str s => simp [allocV]
    | list l => simp [allocV]
  · intro h
    simp [allocFields]
  · intro h k v rest r ih1 ih2
    simp only [allocFields]
    have ih1' : h.next ≤ r.1.next := ih1
    have ih2' : r.1.next ≤ (allocFields r.1 rest).1.next := ih2
    show h.next ≤ (allocFields r.1 rest).1.next
    omega

/-- Allocation never touches an already-allocated address. -/
theorem alloc_frame :
    (∀ (h : Heap) (v : Value) (a : Nat), a < h.next →
      alookupN (allocV h v).1.objs a = alookupN h.objs a) ∧
    (∀ (h : Heap) (xs : List (String × Value)) (a : Nat), a < h.next →
      alookupN (allocFields h xs).1.objs a = alookupN h.objs a) := by
  refine allocV.mutual_induct
    (fun h v => ∀ a : Nat, a < h.next →
      alookupN (allocV h v).1.objs a = alookupN h.objs a)
    (fun h xs => ∀ a : Nat, a < h.next →
      alookupN (allocFields h xs).1.objs a = alookupN h.objs a)
    ?_ ?_ ?_ ?_
  · intro h xs ih a ha
    simp only [allocV]
    have hb : a < (allocFields h xs).1.next :=
      lt_of_lt_of_le ha (alloc_next_le.2 h xs)
    rw [alookupN_astoreN_ne _ _ _ _ (by omega)]
    exact ih a ha
  · intro h v hnd a ha
    cases v with
    | dict xs => exact absurd rfl (hnd xs)
    | none => rfl
    | bool b => rfl
    | int n => rfl
    | str s => rfl
    | list l => rfl
  · intro h a ha
    rfl
  · intro h k v rest r ih1 ih2 a ha
    simp only [allocFields]
    have hr : h.next ≤ r.1.next := alloc_next_le.1 h v
    have h2 := ih2 a (by omega)
    show alookupN (allocFields r.1 rest).1.objs a = alookupN h.objs a
    rw [h2]
    exact ih1 a ha

/-- The allocated root is fresh: at or above the old counter. -/
theorem alloc_fresh :
    (∀ (h : Heap) (v : Value),
      hvalAbove h.next (allocV h v).2 = true) ∧
    (∀ (h : Heap) (xs : List (String × Value)),
      ∀ kv ∈ (allocFields h xs).2, hvalAbove h.next kv.2 = true) := by
  refine allocV.mutual_induct
    (fun h v => hvalAbove h.next (allocV h v).2 = true)
    (fun h xs =>
      ∀ kv ∈ (allocFields h xs).2, hvalAbove h.next kv.2 = true)
    ?_ ?_ ?_ ?_
  · intro h xs _
    simp only [allocV]
    simp only [hvalAbove, decide_eq_true_eq]
    exact alloc_next_le.2 h xs
  · intro h v hnd
    cases v with
    | dict xs => exact absurd rfl (hnd xs)
    | none => rfl
    | bool b => rfl
    | int n => rfl
    | str s => rfl
    | list l => rfl
  · intro h kv hkv
    simp [allocFields] at hkv
  · intro h k v rest r ih1 ih2 kv hkv
    simp only [allocFields] at hkv
    rcases List.mem_cons.1 hkv with rfl | hkv
    · exact ih1
    · exact hvalAbove_mono h.next r.1.next kv.2 (alloc_next_le.1 h v)
        (ih2 kv hkv)

/-- Allocation preserves the "fresh segment refers only into the fresh
segment" invariant. -/
theorem alloc_seg :
    (∀ (h : Heap) (v : Value) (n0 : Nat), n0 ≤ h.next → segAbove n0 h →
      segAbove n0 (allocV h v).1) ∧
    (∀ (h : Heap) (xs : List (String × Value)) (n0 : Nat),
      n0 ≤ h.next → segAbove n0 h → segAbove n0 (allocFields h xs).1) := by
  refine allocV.mutual_induct
    (fun h v => ∀ n0 : Nat, n0 ≤ h.next → segAbove n0 h →
      segAbove n0 (allocV h v).1)
    (fun h xs => ∀ n0 : Nat, n0 ≤ h.next → segAbove n0 h →
      segAbove n0 (allocFields h xs).1)
    ?_ ?_ ?_ ?_
  · intro h xs ih n0 hn hseg
    simp only [allocV]
    intro p hp hge kv hkv
    rcases mem_astoreN _ _ _ p hp with hpin | rfl
    · exact ih n0 hn hseg p hpin hge kv hkv
    · exact hvalAbove_mono n0 h.next kv.2 hn (alloc_fresh.2 h xs kv hkv)
  · intro h v hnd n0 hn hseg
    cases v with
    | dict xs => exact absurd rfl (hnd xs)
    | none => exact hseg
    | bool b => exact hseg
    | int n => exact hseg
    | str s => exact hseg
    | list l => exact hseg
  · intro h n0 hn hseg
    exact hseg
  · intro h k v rest r ih1 ih2 n0 hn hseg
    simp only [allocFields]
    have hs1 : segAbove n0 r.1 := ih1 n0 hn hseg
    have hn1 : n0 ≤ r.1.next := le_trans hn (alloc_next_le.1 h v)
    exact ih2 n0 hn1 hs1

/-- Mutating the fresh copy (writes at addresses it reaches) never
changes the readout of a well-formed document already on the heap. -/
theorem copy_isolation (fuel : Nat) (h : Heap) (root src : HVal)
    (ws : List (Nat × HObj)) (hwf : heapWF h)
    (hb : hvalBelow h.next root = true)
    (hws : ∀ w ∈ ws,
      w.1 ∈ reachV (allocV h (readV h fuel src)).1 fuel
        (allocV h (readV h fuel src)).2) :
    readV (hwrites (allocV h (readV h fuel src)).1 ws) fuel root =
      readV h fuel root := by
  have hreach_lt := reach_lt h hwf fuel root hb
  have hag1 : ∀ a ∈ reachV h fuel root,
      alookupN (allocV h (readV h fuel src)).1.objs a =
        alookupN h.objs a :=
    fun a ha => alloc_frame.1 h (readV h fuel src) a (hreach_lt a ha)
  have hagree1 := readV_reachV_agree fuel root h
    (allocV h (readV h fuel src)).1 hag1
  have hseg : segAbove h.next (allocV h (readV h fuel src)).1 :=
    alloc_seg.1 h (readV h fuel src) h.next (le_refl _)
      (segAbove_of_heapWF h hwf)
  have hcopy := reach_ge h.next _ hseg fuel _
    (alloc_fresh.1 h (readV h fuel src))
  have hag2 : ∀ a ∈ reachV (allocV h (readV h fuel src)).1 fuel root,
      alookupN (hwrites (allocV h (readV h fuel src)).1 ws).objs a =
        alookupN (allocV h (readV h fuel src)).1.objs a := by
    intro a ha
    apply hwrites_lookup
    intro w hw hwa
    have h1 := hcopy w.1 (hws w hw)
    rw [hagree1.2] at ha
    have h2 := hreach_lt a ha
    omega
  have hagree2 := readV_reachV_agree fuel root
    (allocV h (readV h fuel src)).1
    (hwrites (allocV h (readV h fuel src)).1 ws) hag2
  rw [hagree2.1, hagree1.1]

/-- Mutating the original document (writes at addresses it reaches)
never changes the readout of the fresh deep copy made beforehand. -/
theorem original_isolation (fuel : Nat) (h : Heap) (root : HVal)
    (ws : List (Nat × HObj)) (hwf : heapWF h)
    (hb : hvalBelow h.next root = true)
    (hws : ∀ w ∈ ws,
      w.1 ∈ reachV (allocV h (readV h fuel root)).1 fuel root) :
    readV (hwrites (allocV h (readV h fuel root)).1 ws) fuel
        (allocV h (readV h fuel root)).2 =
      readV (allocV h (readV h fuel root)).1 fuel
        (allocV h (readV h fuel root)).2 := by
  have hreach_lt := reach_lt h hwf fuel root hb
  have hag1 : ∀ a ∈ reachV h fuel root,
      alookupN (allocV h (readV h fuel root)).1.objs a =
        alookupN h.objs a :=
    fun a ha => alloc_frame.1 h (readV h fuel root) a (hreach_lt a ha)
  have hagree1 := readV_reachV_agree fuel root h
    (allocV h (readV h fuel root)).1 hag1
  have hseg : segAbove h.next (allocV h (readV h fuel root)).1 :=
    alloc_seg.1 h (readV h fuel root) h.next (le_refl _)
      (segAbove_of_heapWF h hwf)
  have hcopy := reach_ge h.next _ hseg fuel _
    (alloc_fresh.1 h (readV h fuel root))
  have hag2 : ∀ a ∈ reachV (allocV h (readV h fuel root)).1 fuel
      (allocV h (readV h fuel root)).2,
      alookupN (hwrites (allocV h (readV h fuel root)).1 ws).objs a =
        alookupN (allocV h (readV h fuel root)).1.objs a := by
    intro a ha
    apply hwrites_lookup
    intro w hw hwa
    have h1 := hcopy a ha
    have h2 : w.1 ∈ reachV h fuel root := by
      rw [← hagree1.2]
      exact hws w hw
    have h3 := hreach_lt w.1 h2
    omega
  exact (readV_reachV_agree fuel (allocV h (readV h fuel root)).2
    (allocV h (readV h fuel root)).1
    (hwrites (allocV h (readV h fuel root)).1 ws) hag2).1

theorem alookup_mem {β : Type} (xs : List (String × β)) (k : String)
    (v : β) (h : alookup xs k = some v) : (k, v) ∈ xs := by
  induction xs with
  | nil => simp [alookup] at h
  | cons hd tl ih =>
    simp only [alookup] at h
    by_cases hk : hd.1 = k
    · rw [if_pos hk] at h
      have hv : hd.2 = v := Option.some.inj h
      have heq : hd = (k, v) := by
        cases hd with
        | mk k0 v0 =>
          simp only at hk hv
          rw [hk, hv]
      rw [← heq]
      exact List.mem_cons_self _ _
    · rw [if_neg hk] at h
      exact List.mem_cons_of_mem _ (ih h)

/-- C10: the service persists deep copies and deep-copies before
returning, so returned documents are decoupled from persisted state:
(1) after `get_plan` returns a copy, mutating it (any writes at
addresses the copy reaches) leaves the recalled plan root and its
readout — what any subsequent read of the same plan id returns —
unchanged; (2) likewise for `get_execution`; (3) mutating the copy
`get_artifacts` returns leaves the stored execution record's readout
unchanged; (4) `plan()` stores a deep copy, so mutating the returned
original afterwards leaves the stored copy's readout unchanged. -/
theorem deepcopy_isolation_spec :
    (∀ (fuel : Nat) (s : DocStore) (pid : String) (root : HVal)
        (s1 : DocStore) (copy : HVal) (ws : List (Nat × HObj)),
      storeWF s →
      alookup s.plans pid = some root →
      get_plan_doc fuel s pid = some (s1, copy) →
      (∀ w ∈ ws, w.1 ∈ reachV s1.heap fuel copy) →
      alookup s1.plans pid = some root ∧
      readV (hwrites s1.heap ws) fuel root = readV s.heap fuel root) ∧
    (∀ (fuel : Nat) (s : DocStore) (pid : String) (root : HVal)
        (s1 : DocStore) (copy : HVal) (ws : List (Nat × HObj)),
      storeWF s →
      alookup s.executions pid = some root →
      get_execution_doc fuel s pid = some (s1, copy) →
      (∀ w ∈ ws, w.1 ∈ reachV s1.heap fuel copy) →
      alookup s1.executions pid = some root ∧
      readV (hwrites s1.heap ws) fuel root = readV s.heap fuel root) ∧
    (∀ (fuel : Nat) (s : DocStore) (pid : String) (root : HVal)
        (s1 : DocStore) (copy : HVal) (ws : List (Nat × HObj)),
      storeWF s →
      alookup s.executions pid = some root →
      get_artifacts_doc fuel s pid = some (s1, copy) →
      (∀ w ∈ ws, w.1 ∈ reachV s1.heap fuel copy) →
      readV (hwrites s1.heap ws) fuel root = readV s.heap fuel root) ∧
    (∀ (fuel : Nat) (s : DocStore) (pid : String) (root : HVal)
        (ws : List (Nat × HObj)),
      heapWF s.heap →
      hvalBelow s.heap.next root = true →
      (∀ w ∈ ws,
        w.1 ∈ reachV (remember_plan fuel s pid root).heap fuel root) →
      alookup (remember_plan fuel s pid root).plans pid =
        some (deepcopy s.heap fuel root).2 ∧
      readV (hwrites (remember_plan fuel s pid root).heap ws) fuel
          (deepcopy s.heap fuel root).2 =
        readV (remember_plan fuel s pid root).heap fuel
          (deepcopy s.heap fuel root).2) := by
  refine ⟨?_, ?_, ?_, ?_⟩
  · intro fuel s pid root s1 copy ws hwf hroot hget hws
    simp only [get_plan_doc, hroot] at hget
    have hp := Option.some.inj hget
    have hs1 : s1 = { s with heap := (deepcopy s.heap fuel root).1 } :=
      (congrArg Prod.fst hp).symm
    have hcopy : copy = (deepcopy s.heap fuel root).2 :=
      (congrArg Prod.snd hp).symm
    subst hs1
    subst hcopy
    constructor
    · exact hroot
    · exact copy_isolation fuel s.heap root root ws hwf.1
        (hwf.2.1 (pid, root) (alookup_mem s.plans pid root hroot)) hws
  · intro fuel s pid root s1 copy ws hwf hroot hget hws
    simp only [get_execution_doc, hroot] at hget
    have hp := Option.some.inj hget
    have hs1 : s1 = { s with heap := (deepcopy s.heap fuel root).1 } :=
      (congrArg Prod.fst hp).symm
    have hcopy : copy = (deepcopy s.heap fuel root).2 :=
      (congrArg Prod.snd hp).symm
    subst hs1
    subst hcopy
    constructor
    · exact hroot
    · exact copy_isolation fuel s.heap root root ws hwf.1
        (hwf.2.2 (pid, root) (alookup_mem s.executions pid root hroot))
        hws
  · intro fuel s pid root s1 copy ws hwf hroot hgeta hws
    simp only [get_artifacts_doc, hroot] at hgeta
    have hp := Option.some.inj hgeta
    have hs1 : s1 = { s with
        heap := (deepcopy s.heap fuel (artifactsRoot s.heap root)).1 } :=
      (congrArg Prod.fst hp).symm
    have hcopy : copy =
        (deepcopy s.heap fuel (artifactsRoot s.heap root)).2 :=
      (congrArg Prod.snd hp).symm
    subst hs1
    subst hcopy
    exact copy_isolation fuel s.heap root (artifactsRoot s.heap root) ws
      hwf.1
      (hwf.2.2 (pid, root) (alookup_mem s.executions pid root hroot))
      hws
  · intro fuel s pid root ws hwf hb hws
    constructor
    · exact alookup_astore_self s.plans pid (deepcopy s.heap fuel root).2
    · exact original_isolation fuel s.heap root ws hwf hb hws

/-- A one-document heap for the isolation witness. -/
def wHeap10 : Heap :=
  { objs := [(0, [("x", HVal.prim (Value.int 1))])], next := 1 }

/-- The store persisting that document as plan and execution `p`. -/
def wStore10 : DocStore :=
  { heap := wHeap10, plans := [("p", HVal.ref 0)],
    executions := [("p", HVal.ref 0)] }

/-- The result of reading plan `p` back (store with the copy allocated,
and the returned copy). -/
def wRead10 : DocStore × HVal :=
  (get_plan_doc 2 wStore10 "p").getD (wStore10, HVal.prim Value.none)

/-- A mutation of the returned copy (it lives at address 1). -/
def wWs10 : List (Nat × HObj) := [(1, [("x", HVal.prim (Value.int 99))])]

/-- A mutation of the original document at address 0. -/
def wWs0 : List (Nat × HObj) := [(0, [("x", HVal.prim (Value.int 7))])]

/-- Witness for `deepcopy_isolation_spec` on a concrete store. -/
theorem deepcopy_isolation_spec_witness :
    (alookup wRead10.1.plans "p" = some (HVal.ref 0) ∧
      readV (hwrites wRead10.1.heap wWs10) 2 (HVal.ref 0) =
        readV wStore10.heap 2 (HVal.ref 0)) ∧
    readV (hwrites (remember_plan 2 wStore10 "q" (HVal.ref 0)).heap
        wWs0) 2 (deepcopy wStore10.heap 2 (HVal.ref 0)).2 =
      readV (remember_plan 2 wStore10 "q" (HVal.ref 0)).heap 2
        (deepcopy wStore10.heap 2 (HVal.ref 0)).2 := by
  constructor
  · exact deepcopy_isolation_spec.1 2 wStore10 "p" (HVal.ref 0)
      wRead10.1 wRead10.2 wWs10 (by decide) rfl rfl (by decide)
  · exact (deepcopy_isolation_spec.2.2.2 2 wStore10 "q" (HVal.ref 0)
      wWs0 (by decide) (by decide) (by decide)).2

end Themis
